import Mathlib

/-!
Shallow embedding of the index-computation engine of the
`polymarket-crypto-aggregator` repository, together with proofs about it.

Numbers are modelled as rationals.  Every division performed by the embedded
code is either guarded by the source itself (`totalWeight > 0` checks and the
like) or, where the source divides without a guard (the sentiment fallback of
`RefinedCryptoIndex`), the possible `NaN` is made explicit with `Option`.

Sources embedded here:
  * `src/CPMI_Final.js`            (class `CPMI_Final`)        — namespace `CPMI`
  * `src/SimpleCryptoIndex.js`     (class `SimpleCryptoIndex`) — namespace `Simple`
  * `src/RefinedCryptoIndex` file  (class `RefinedCryptoIndex`)— namespace `Refined`
  * the probability-extraction test script (`testMethod5_Refined`) — namespace `Script`
-/

attribute [local semireducible] Rat.add Rat.mul Rat.sub Rat.inv Rat.ofScientific

namespace PolymarketIndex

/-- `listStartsWith p l` is true when `p` is an initial segment of `l`. -/
def listStartsWith : List Char → List Char → Bool
  | [], _ => true
  | _ :: _, [] => false
  | p :: ps, c :: cs => p == c && listStartsWith ps cs

/-- Substring occurrence at any position. -/
def listContainsSub (pat : List Char) : List Char → Bool
  | [] => pat.isEmpty
  | c :: cs => listStartsWith pat (c :: cs) || listContainsSub pat cs

/-- `String.prototype.toLowerCase()` for the ASCII titles handled here,
computed over the character list (so that it evaluates by `decide`). -/
def jsToLower (s : String) : String :=
  String.mk (s.data.map Char.toLower)

/-- JavaScript's `String.prototype.includes`: substring containment. -/
def jsIncludes (s pat : String) : Bool :=
  listContainsSub pat.toList s.toList

/-- `Math.min(Math.max(x, 0), 100)`, the clamp used throughout the extractors. -/
def jsClamp (x : ℚ) : ℚ :=
  min (max x 0) 100

/-- One raw trade record as delivered by the data API. -/
structure TradeRecord where
  conditionId : String
  title : String
  slug : String
  eventSlug : String
  side : String
  size : ℚ
  price : ℚ
  /-- unix seconds, as in the feed -/
  timestamp : ℚ
deriving DecidableEq

/-- Per-market summary accumulated by `processCryptoTrades`. -/
structure MarketSummary where
  conditionId : String
  title : String
  slug : String
  eventSlug : String
  trades : List TradeRecord
  totalVolume : ℚ
  totalValue : ℚ
  buyVolume : ℚ
  sellVolume : ℚ
  buyTrades : ℕ
  sellTrades : ℕ
  avgPrice : ℚ
  lastTrade : Option TradeRecord
deriving DecidableEq

/-- The fresh summary created when a `conditionId` is first seen
(`cryptoMarkets.set(marketKey, {...})` in `processCryptoTrades`). -/
def emptyMarket (t : TradeRecord) : MarketSummary :=
  { conditionId := t.conditionId
    title := t.title
    slug := t.slug
    eventSlug := t.eventSlug
    trades := []
    totalVolume := 0
    totalValue := 0
    buyVolume := 0
    sellVolume := 0
    buyTrades := 0
    sellTrades := 0
    avgPrice := 0
    lastTrade := none }

/-- The per-trade accumulation step of `processCryptoTrades`: push the trade,
add its size and value, remember it as `lastTrade`, and bump the side split. -/
def addTrade (m : MarketSummary) (t : TradeRecord) : MarketSummary :=
  { m with
    trades := m.trades ++ [t]
    totalVolume := m.totalVolume + t.size
    totalValue := m.totalValue + t.size * t.price
    lastTrade := some t
    buyVolume := if t.side = "BUY" then m.buyVolume + t.size else m.buyVolume
    buyTrades := if t.side = "BUY" then m.buyTrades + 1 else m.buyTrades
    sellVolume := if t.side = "BUY" then m.sellVolume else m.sellVolume + t.size
    sellTrades := if t.side = "BUY" then m.sellTrades else m.sellTrades + 1 }

/-- Route one trade into the summary list, creating a new summary when the
`conditionId` is unseen.  A JavaScript `Map` keyed by `conditionId` is
modelled as a list of summaries with pairwise-distinct ids, in first-seen
insertion order (the order `Map` iteration and `Array.from` use). -/
def insertTrade : List MarketSummary → TradeRecord → List MarketSummary
  | [], t => [addTrade (emptyMarket t) t]
  | m :: rest, t =>
      if m.conditionId = t.conditionId then addTrade m t :: rest
      else m :: insertTrade rest t

/-- The final pass of `processCryptoTrades`:
`if (market.totalVolume > 0) market.avgPrice = market.totalValue / market.totalVolume`. -/
def finalizeMarket (m : MarketSummary) : MarketSummary :=
  if 0 < m.totalVolume then { m with avgPrice := m.totalValue / m.totalVolume } else m

/-- `processCryptoTrades(trades)`: group the batch by `conditionId`,
accumulate the running sums, then fill in the average price. -/
def processCryptoTrades (trades : List TradeRecord) : List MarketSummary :=
  (trades.foldl insertTrade []).map finalizeMarket

/-! ### `RefinedCryptoIndex` (part of the repository outside `src/src`):
market-type classification and per-type probability extraction. -/

namespace Refined

/-- `RefinedCryptoIndex.classifyMarketType(title)`. -/
def classifyMarketType (title : String) : String :=
  let t := jsToLower title
  if jsIncludes t "will" && (jsIncludes t "?" || jsIncludes t "yes" || jsIncludes t "no") then
    "binary"
  else if jsIncludes t "price" || jsIncludes t "$" || jsIncludes t "reach" then
    "price_prediction"
  else if jsIncludes t "between" || jsIncludes t "range" then
    "range"
  else if jsIncludes t "up" || jsIncludes t "down" || jsIncludes t "higher" || jsIncludes t "lower" then
    "directional"
  else
    "unknown"

/-- The bullish keyword list of `RefinedCryptoIndex.isBullishOutcome`. -/
def bullishKeywords : List String :=
  ["up", "higher", "rise", "increase", "bull", "positive", "yes"]

/-- The bearish keyword list of `RefinedCryptoIndex.isBullishOutcome`. -/
def bearishKeywords : List String :=
  ["down", "lower", "fall", "decrease", "bear", "negative", "no"]

/-- `RefinedCryptoIndex.isBullishOutcome(title)`: strictly more bullish than
bearish keyword hits. -/
def isBullishOutcome (title : String) : Bool :=
  let t := jsToLower title
  (bearishKeywords.filter (fun k => jsIncludes t k)).length <
    (bullishKeywords.filter (fun k => jsIncludes t k)).length

/-- `RefinedCryptoIndex.extractBinaryProbability(market)`. -/
def extractBinaryProbability (m : MarketSummary) : ℚ :=
  if isBullishOutcome (jsToLower m.title) then jsClamp (m.avgPrice * 100)
  else jsClamp ((1 - m.avgPrice) * 100)

/-- The pieces of one match of the regex `\$([0-9,]+(?:\.\d+)?)[kkm]?`:
the `[0-9,]+` run, the fractional digits (empty when the optional group is
absent), and the optional `k`/`m` suffix character. -/
structure NumMatch where
  run : List Char
  frac : List Char
  suffix : Option Char
deriving DecidableEq

/-- Try to match `\$([0-9,]+(?:\.\d+)?)[kkm]?` anchored at the head of the
character list; also returns the remaining characters after the match. -/
def parseDollarNumAt : List Char → Option (NumMatch × List Char)
  | '$' :: rest =>
      let p := rest.span (fun c => c.isDigit || c == ',')
      if p.1.isEmpty then none
      else
        let q : List Char × List Char :=
          match p.2 with
          | '.' :: r =>
              let d := r.span Char.isDigit
              if d.1.isEmpty then ([], p.2) else (d.1, d.2)
          | _ => ([], p.2)
        match q.2 with
        | c :: r3 =>
            if c == 'k' || c == 'm' then some (⟨p.1, q.1, some c⟩, r3)
            else some (⟨p.1, q.1, none⟩, q.2)
        | [] => some (⟨p.1, q.1, none⟩, [])
  | _ => none

/-- Leftmost match of the single-price regex, scanning forward one character
at a time exactly as the regex engine does. -/
def scanDollarNum : List Char → Option NumMatch
  | [] => none
  | c :: rest =>
      match parseDollarNumAt (c :: rest) with
      | some r => some r.1
      | none => scanDollarNum rest

/-- Numeric value of a digit string. -/
def digitsVal (ds : List Char) : ℕ :=
  ds.foldl (fun acc c => acc * 10 + (c.toNat - '0'.toNat)) 0

/-- `parseFloat(match[1].replace(/,/g, ''))`.  After comma removal the string
is `digits`, `digits.digits` or `.digits`; it is empty (hence `NaN`,
modelled as `none`) exactly when the run was all commas and there was no
fractional part. -/
def parseFloatOpt (nm : NumMatch) : Option ℚ :=
  let ds := nm.run.filter (fun c => !(c == ','))
  if ds.isEmpty && nm.frac.isEmpty then none
  else some ((digitsVal ds : ℚ) + (digitsVal nm.frac : ℚ) / (10 : ℚ) ^ nm.frac.length)

/-- `RefinedCryptoIndex.extractTargetPrice(title)`.  `none` stands for both
the `null` of a failed match and the `NaN` of `parseFloat('')`; the sole
caller guards with `if (!targetPrice)`, which treats the two identically. -/
def extractTargetPrice (title : String) : Option ℚ :=
  match scanDollarNum title.toList with
  | none => none
  | some nm =>
      match parseFloatOpt nm with
      | none => none
      | some v =>
          let v1 := if nm.suffix = some 'k' then v * 1000 else v
          some (if nm.suffix = some 'm' then v1 * 1000000 else v1)

/-- Anchored match of the range regex
`\$([0-9,]+(?:\.\d+)?)[kkm]?\s*and\s*\$([0-9,]+(?:\.\d+)?)[kkm]?`. -/
def parseRangeAt (cs : List Char) : Option (NumMatch × NumMatch) := do
  let r1 ← parseDollarNumAt cs
  let r2 := r1.2.dropWhile Char.isWhitespace
  match r2 with
  | 'a' :: 'n' :: 'd' :: r3 =>
      let r4 := r3.dropWhile Char.isWhitespace
      let r5 ← parseDollarNumAt r4
      some (r1.1, r5.1)
  | _ => none

/-- Leftmost match of the range regex. -/
def scanRange : List Char → Option (NumMatch × NumMatch)
  | [] => none
  | c :: rest =>
      match parseRangeAt (c :: rest) with
      | some p => some p
      | none => scanRange rest

/-- The `{min, max}` object built by `extractPriceRange`; a `none` bound is
the `NaN` that `Math.min`/`Math.max` propagate when a `parseFloat` failed. -/
structure PriceRange where
  rmin : Option ℚ
  rmax : Option ℚ
deriving DecidableEq

/-- `RefinedCryptoIndex.extractPriceRange(title)`.  Note the source checks
the WHOLE match string for a `k`/`m` suffix (`unit1 = rangeMatch[0]`), so a
suffix on either bound scales both bounds. -/
def extractPriceRange (title : String) : Option PriceRange :=
  match scanRange title.toList with
  | none => none
  | some nms =>
      match parseFloatOpt nms.1, parseFloatOpt nms.2 with
      | some a, some b =>
          let hasK := nms.1.suffix = some 'k' ∨ nms.2.suffix = some 'k'
          let hasM := nms.1.suffix = some 'm' ∨ nms.2.suffix = some 'm'
          let a1 := if hasK then a * 1000 else a
          let a2 := if hasM then a1 * 1000000 else a1
          let b1 := if hasK then b * 1000 else b
          let b2 := if hasM then b1 * 1000000 else b1
          some ⟨some (min a2 b2), some (max a2 b2)⟩
      | _, _ => some ⟨none, none⟩

/-- `RefinedCryptoIndex.getCurrentPrice(title)`, backed by the hard-coded
`currentPrices` table (`BTC: 105000, ETH: 3500, SOL: 200`). -/
def getCurrentPrice (title : String) : Option ℚ :=
  let t := jsToLower title
  if jsIncludes t "bitcoin" || jsIncludes t "btc" then some 105000
  else if jsIncludes t "ethereum" || jsIncludes t "eth" then some 3500
  else if jsIncludes t "solana" || jsIncludes t "sol" then some 200
  else none

/-- `RefinedCryptoIndex.extractPricePredictionProbability(market)`.  The
`target = 0` test mirrors the JavaScript falsiness of `0` in
`if (!targetPrice) return 50` (and likewise for the current price). -/
def extractPricePredictionProbability (m : MarketSummary) : ℚ :=
  let t := jsToLower m.title
  match extractTargetPrice t with
  | none => 50
  | some target =>
      if target = 0 then 50
      else
        match getCurrentPrice t with
        | none => 50
        | some current =>
            if current = 0 then 50
            else if current < target then jsClamp (m.avgPrice * 100)
            else jsClamp ((1 - m.avgPrice) * 100)

/-- `RefinedCryptoIndex.extractRangeProbability(market)`.  A comparison
against a `NaN` bound is false in JavaScript, hence the `false` in the
`none` case. -/
def extractRangeProbability (m : MarketSummary) : ℚ :=
  let t := jsToLower m.title
  match extractPriceRange t with
  | none => 50
  | some r =>
      match getCurrentPrice t with
      | none => 50
      | some current =>
          if current = 0 then 50
          else
            let isBullishRange :=
              match r.rmax, r.rmin with
              | some mx, some mn => decide (current < mx) && decide (mn < current)
              | _, _ => false
            if isBullishRange then jsClamp (m.avgPrice * 100)
            else jsClamp ((1 - m.avgPrice) * 100)

/-- `RefinedCryptoIndex.extractDirectionalProbability(market)`. -/
def extractDirectionalProbability (m : MarketSummary) : ℚ :=
  let t := jsToLower m.title
  if jsIncludes t "up" || jsIncludes t "higher" || jsIncludes t "rise" then
    jsClamp (m.avgPrice * 100)
  else
    jsClamp ((1 - m.avgPrice) * 100)

/-- `RefinedCryptoIndex.extractSentimentProbability(market)`.  The source
divides with no zero guard:

```
const buyRatio = market.buyTrades / (market.buyTrades + market.sellTrades);
const volumeRatio = market.buyVolume / (market.buyVolume + market.sellVolume);
```

`0/0` is `NaN` (modelled as `none`), which `Math.min`/`Math.max` propagate.
Trade counts are naturals, so a zero count denominator is always the `0/0`
case; a zero volume denominator is `0/0` exactly when `buyVolume` is `0`,
and otherwise a signed infinity that the final clamp turns into `100`/`0`. -/
def extractSentimentProbability (m : MarketSummary) : Option ℚ :=
  if m.buyTrades + m.sellTrades = 0 then none
  else if m.buyVolume + m.sellVolume = 0 then
    if m.buyVolume = 0 then none
    else if 0 < m.buyVolume then some 100 else some 0
  else
    some (jsClamp ((((m.buyTrades : ℚ) / ((m.buyTrades : ℚ) + (m.sellTrades : ℚ))) * (6/10) +
      (m.buyVolume / (m.buyVolume + m.sellVolume)) * (4/10)) * 100))

/-- `RefinedCryptoIndex.calculateBullishProbability(market)`: dispatch on the
market type stored by `processCryptoTradesRefined` (which is
`classifyMarketType` of the market's title).  `none` is a `NaN` result. -/
def calculateBullishProbability (m : MarketSummary) : Option ℚ :=
  match classifyMarketType m.title with
  | "binary" => some (extractBinaryProbability m)
  | "price_prediction" => some (extractPricePredictionProbability m)
  | "range" => some (extractRangeProbability m)
  | "directional" => some (extractDirectionalProbability m)
  | _ => extractSentimentProbability m

end Refined

/-- The category matcher shared by `calculateCategoryIndex` (all variants)
and `CPMI_Final.getMarketCategory`: some keyword occurs in the lowercased
title, slug or event slug. -/
def matchesCategory (keywords : List String) (m : MarketSummary) : Bool :=
  keywords.any fun k =>
    jsIncludes (jsToLower m.title) k ||
    jsIncludes (jsToLower m.slug) k ||
    jsIncludes (jsToLower m.eventSlug) k

/-! ### `CPMI_Final` (src/src/CPMI_Final.js): market-type classification and
single-category assignment. -/

namespace CPMI

/-- `CPMI_Final.classifyMarketType(title)`, the five-way classifier with two
separate binary patterns. -/
def classifyMarketType (title : String) : String :=
  let t := jsToLower title
  if jsIncludes t "between" && jsIncludes t "and" &&
      (jsIncludes t "$" || jsIncludes t "price") then
    "range"
  else if (jsIncludes t "reach" || jsIncludes t "hit" ||
      jsIncludes t "above" || jsIncludes t "below" ||
      jsIncludes t "dip to" || jsIncludes t "go to" ||
      jsIncludes t "touch" || jsIncludes t "drop to" ||
      jsIncludes t "fall to" || jsIncludes t "crash to") &&
      (jsIncludes t "$" || jsIncludes t "price") then
    "price_target"
  else if jsIncludes t "up or down" || jsIncludes t "up/down" ||
      jsIncludes t "bullish" || jsIncludes t "bearish" then
    "direction"
  else if jsIncludes t "will" && (jsIncludes t "?" || jsIncludes t "happen") then
    "binary"
  else if jsIncludes t "will" &&
      (jsIncludes t "say" || jsIncludes t "pass" || jsIncludes t "win") then
    "binary"
  else
    "sentiment"

/-- `CPMI_Final.extractBinaryProbability(market)`: the raw average price as a
percentage, with no clamp. -/
def extractBinaryProbability (m : MarketSummary) : ℚ :=
  m.avgPrice * 100

/-- The fixed category keyword table built by
`CPMI_Final.initializeMarketCategories()`. -/
def marketCategories : List (String × List String) :=
  [("bitcoin-markets",
    ["bitcoin", "btc", "bitcoin price", "btc price", "bitcoin adoption",
     "bitcoin etf", "bitcoin halving", "bitcoin regulation"]),
   ("ethereum-ecosystem",
    ["ethereum", "eth", "ethereum price", "eth price", "ethereum upgrade",
     "ethereum 2.0", "eth2", "merge", "shanghai", "cancun", "defi",
     "decentralized finance", "uniswap", "aave", "compound"]),
   ("regulatory-outcomes",
    ["sec", "regulation", "regulatory", "approval", "policy", "cftc",
     "crypto regulation", "digital asset", "stablecoin", "crypto bill",
     "regulatory approval", "sec approval"]),
   ("major-altcoins",
    ["solana", "sol", "cardano", "ada", "polkadot", "dot", "chainlink",
     "link", "litecoin", "ltc", "avalanche", "avax", "polygon", "matic"]),
   ("infrastructure",
    ["exchange", "custody", "institutional", "adoption", "listing",
     "coinbase", "binance", "kraken", "fidelity", "blackrock",
     "exchange listing", "custody solution"])]

/-- `CPMI_Final.getMarketCategory(market)`: first category (in table order)
with a keyword hit on title, slug or event slug; `"uncategorized"` otherwise.
Parametrised by the category table, instantiated with `marketCategories`. -/
def getMarketCategory (cats : List (String × List String)) (m : MarketSummary) : String :=
  match cats.find? (fun c => matchesCategory c.2 m) with
  | some c => c.1
  | none => "uncategorized"

/-- `CPMI_Final.getHeuristicTimeAdjustment(market)`: the keyword-based
time-decay fallback used by `getTimeToExpirationAdjustment` whenever no
expiration date parses from the title; `0.7` is the default.
(`calculateOverallTimeDecay` averages this adjustment over the batch, and
`calculateIndex` multiplies the overall probability by that average before
converting to the 100-baseline scale.) -/
def getHeuristicTimeAdjustment (m : MarketSummary) : ℚ :=
  let t := jsToLower m.title
  if jsIncludes t "2024" || jsIncludes t "end of year" then 8/10
  else if jsIncludes t "2025" then 1
  else if jsIncludes t "month" || jsIncludes t "30 days" then 6/10
  else if jsIncludes t "week" || jsIncludes t "7 days" then 4/10
  else if jsIncludes t "day" || jsIncludes t "24 hours" then 2/10
  else 7/10

end CPMI

/-! ### The ordered-rule-list classifier as the specification words it
(§4.1: "test the title against an ordered list of … rules …, first match
wins: range → price-target → directional → binary → sentiment").  The four
rules below are modelled from the spec's words — exactly the patterns §4.1
enumerates, nothing more — to be compared with the classifiers of the code.
A second, code-derived rule list follows, read off the conditions of
`CPMI.classifyMarketType`; the two differ where the code checks patterns the
spec does not list. -/

/-- Modelled from the spec: the §4.1 range rule —
"between" AND "and" AND ("$" OR "price").  (Identical to the code's.) -/
def rangeRule (t : String) : Bool :=
  jsIncludes t "between" && jsIncludes t "and" && (jsIncludes t "$" || jsIncludes t "price")

/-- Modelled from the spec: the §4.1 price-target rule — one of the
enumerated verbs reach/hit/above/below/"dip to"/"drop to", plus "$" or
"price".  (The code additionally accepts "go to", "touch", "fall to" and
"crash to".) -/
def priceTargetRule (t : String) : Bool :=
  (jsIncludes t "reach" || jsIncludes t "hit" || jsIncludes t "above" ||
    jsIncludes t "below" || jsIncludes t "dip to" || jsIncludes t "drop to") &&
  (jsIncludes t "$" || jsIncludes t "price")

/-- Modelled from the spec: the §4.1 directional rule — "up or down",
"bullish" or "bearish".  (The code additionally accepts "up/down".) -/
def directionalRule (t : String) : Bool :=
  jsIncludes t "up or down" || jsIncludes t "bullish" || jsIncludes t "bearish"

/-- Modelled from the spec: the §4.1 binary rule — "will" plus one of "?",
"happen", "pass", "win", "say".  (Identical to the union of the code's two
adjacent binary branches.) -/
def binaryRule (t : String) : Bool :=
  jsIncludes t "will" &&
  (jsIncludes t "?" || jsIncludes t "happen" || jsIncludes t "pass" ||
    jsIncludes t "win" || jsIncludes t "say")

/-- The ordered rule list of the specification (modelled from the spec). -/
def marketTypeRuleList : List (String × (String → Bool)) :=
  [("range", rangeRule), ("price_target", priceTargetRule),
   ("direction", directionalRule), ("binary", binaryRule)]

/-- First-match-wins classification over the spec's ordered rule list, with
`"sentiment"` as the universal fallback (modelled from the spec). -/
def classifyByRuleList (title : String) : String :=
  let t := jsToLower title
  match marketTypeRuleList.find? (fun r => r.2 t) with
  | some r => r.1
  | none => "sentiment"

/-- The price-target condition of `CPMI_Final.classifyMarketType`, verbatim:
ten verbs (the spec's six plus "go to", "touch", "fall to", "crash to"),
plus "$" or "price". -/
def cpmiPriceTargetRule (t : String) : Bool :=
  (jsIncludes t "reach" || jsIncludes t "hit" || jsIncludes t "above" ||
    jsIncludes t "below" || jsIncludes t "dip to" || jsIncludes t "go to" ||
    jsIncludes t "touch" || jsIncludes t "drop to" || jsIncludes t "fall to" ||
    jsIncludes t "crash to") &&
  (jsIncludes t "$" || jsIncludes t "price")

/-- The directional condition of `CPMI_Final.classifyMarketType`, verbatim:
"up or down" / "up/down" / "bullish" / "bearish". -/
def cpmiDirectionalRule (t : String) : Bool :=
  jsIncludes t "up or down" || jsIncludes t "up/down" ||
  jsIncludes t "bullish" || jsIncludes t "bearish"

/-- The ordered rule list read off the conditions of
`CPMI.classifyMarketType` (range and binary coincide with the spec's rules;
price-target and directional are the code's wider conditions). -/
def codeMarketTypeRuleList : List (String × (String → Bool)) :=
  [("range", rangeRule), ("price_target", cpmiPriceTargetRule),
   ("direction", cpmiDirectionalRule), ("binary", binaryRule)]

/-- First-match-wins classification over the code-derived rule list, with
`"sentiment"` as the universal fallback. -/
def classifyByCodeRuleList (title : String) : String :=
  let t := jsToLower title
  match codeMarketTypeRuleList.find? (fun r => r.2 t) with
  | some r => r.1
  | none => "sentiment"

/-! ### The probability-extraction test script's Method 5
(`testMethod5_Refined` with `isBullishOutcomeRefined`): same classifier and
extractors as `RefinedCryptoIndex` except for a richer keyword set that also
counts "above"/"reach" as bullish and "below"/"crash" as bearish. -/

namespace Script

/-- `isBullishOutcomeRefined(title)` from the test script. -/
def isBullishOutcomeRefined (title : String) : Bool :=
  let bullish := ["up", "higher", "rise", "increase", "bull", "positive", "yes",
    "above", "reach"]
  let bearish := ["down", "lower", "fall", "decrease", "bear", "negative", "no",
    "below", "crash"]
  let t := jsToLower title
  (bearish.filter (fun k => jsIncludes t k)).length <
    (bullish.filter (fun k => jsIncludes t k)).length

/-- `extractBinaryProbabilityRefined(market)` from the test script. -/
def extractBinaryProbabilityRefined (m : MarketSummary) : ℚ :=
  if isBullishOutcomeRefined (jsToLower m.title) then jsClamp (m.avgPrice * 100)
  else jsClamp ((1 - m.avgPrice) * 100)

end Script

/-! ### `SimpleCryptoIndex` (src/src/SimpleCryptoIndex.js): the index engine
whose tick the aggregation claims are about.  The category configuration
(`marketCategories` together with the `categoryWeights` lookup) is modelled
as a list of `CategoryCfg`; the sensitivity values are the defaults
`volume 7, time 6, marketCap 5, impact 8`. -/

namespace Simple

/-- One configured category: its name, keyword list and aggregation weight. -/
structure CategoryCfg where
  name : String
  keywords : List String
  weight : ℚ
deriving DecidableEq

/-- The engine configuration used by `calculateIndex`. -/
structure Config where
  categories : List CategoryCfg
  baselineValue : ℚ
  /-- milliseconds, default 3 600 000 (1 hour) -/
  smoothingPeriod : ℚ
deriving DecidableEq

/-- The crypto-detection keyword list (`this.cryptoKeywords`). -/
def cryptoKeywords : List String :=
  ["bitcoin", "btc", "ethereum", "eth", "crypto", "cryptocurrency",
   "defi", "nft", "meme", "coin", "token", "blockchain", "web3",
   "solana", "sol", "cardano", "ada", "polkadot", "dot", "chainlink",
   "link", "uniswap", "uni", "aave", "compound", "maker", "mkr",
   "dogecoin", "doge", "shiba", "shib", "pepe", "floki", "bonk"]

/-- The per-trade predicate of `filterCryptoTrades`. -/
def tradeIsCrypto (t : TradeRecord) : Bool :=
  cryptoKeywords.any fun k =>
    jsIncludes (jsToLower t.title) k ||
    jsIncludes (jsToLower t.slug) k ||
    jsIncludes (jsToLower t.eventSlug) k

/-- `SimpleCryptoIndex.filterCryptoTrades(trades)`. -/
def filterCryptoTrades (trades : List TradeRecord) : List TradeRecord :=
  trades.filter tradeIsCrypto

/-- `SimpleCryptoIndex.extractProbability(market)`: `null` when the average
price is falsy or non-positive (`!price || price <= 0`), otherwise the price
clamped into `[0, 100]` percent. -/
def extractProbability (m : MarketSummary) : Option ℚ :=
  if m.avgPrice ≤ 0 then none
  else some (jsClamp (m.avgPrice * 100))

/-- `calculateVolumeWeight(market)`: `min(volume / 1000, 1)`. -/
def calculateVolumeWeight (m : MarketSummary) : ℚ :=
  min (m.totalVolume / 1000) 1

/-- `calculateTimeWeight(market)`: linear decay of the last trade's age over
24 hours; `now` is in milliseconds (`Date.now()`), trade timestamps are unix
seconds, hence the `* 1000`. -/
def calculateTimeWeight (now : ℚ) (m : MarketSummary) : ℚ :=
  match m.lastTrade with
  | none => 0
  | some t => max 0 (1 - (now - t.timestamp * 1000) / 86400000)

/-- `calculateMarketCapWeight(market)`: the fixed keyword-ranked table. -/
def calculateMarketCapWeight (m : MarketSummary) : ℚ :=
  let t := jsToLower m.title
  if jsIncludes t "bitcoin" || jsIncludes t "btc" then 1
  else if jsIncludes t "ethereum" || jsIncludes t "eth" then 9/10
  else if jsIncludes t "solana" || jsIncludes t "sol" then 8/10
  else if jsIncludes t "cardano" || jsIncludes t "ada" then 7/10
  else if jsIncludes t "polkadot" || jsIncludes t "dot" then 6/10
  else if jsIncludes t "chainlink" || jsIncludes t "link" then 5/10
  else if jsIncludes t "uniswap" || jsIncludes t "uni" then 4/10
  else if jsIncludes t "dogecoin" || jsIncludes t "doge" then 3/10
  else 2/10

/-- `calculateImpactWeight`'s fixed score table (`impactScores`). -/
def impactScores : List (String × ℚ) :=
  [("major-crypto", 1), ("altcoins", 7/10), ("defi", 6/10),
   ("meme-coins", 3/10), ("nft-gaming", 2/10)]

/-- `calculateImpactWeight(market)`: score of the first configured category
whose keywords hit the TITLE (only), `impactScores[category] || 0.1` — the
table has no zero or missing scores for its own keys, so `getD` matches the
JavaScript `||` fallback — and `0.1` when no category matches. -/
def calculateImpactWeight (cats : List CategoryCfg) (m : MarketSummary) : ℚ :=
  match cats.find? (fun c => c.keywords.any fun k => jsIncludes (jsToLower m.title) k) with
  | some c => (impactScores.lookup c.name).getD (1/10)
  | none => 1/10

/-- `SimpleCryptoIndex.calculateMarketWeight(market)` with the default
sensitivities `(7, 6, 5, 8) / 10`. -/
def calculateMarketWeight (cats : List CategoryCfg) (now : ℚ) (m : MarketSummary) : ℚ :=
  calculateVolumeWeight m * (7/10) +
  calculateTimeWeight now m * (6/10) +
  calculateMarketCapWeight m * (5/10) +
  calculateImpactWeight cats m * (8/10)

/-- The `(probability × weight, weight)` pair one market adds to its
category's sums, `(0, 0)` when the source's
`probability !== null && marketWeight > 0` guard rejects it. -/
def marketContribution (cats : List CategoryCfg) (now : ℚ) (m : MarketSummary) : ℚ × ℚ :=
  let w := calculateMarketWeight cats now m
  match extractProbability m with
  | some p => if 0 < w then (p * w, w) else (0, 0)
  | none => (0, 0)

/-- The accumulation loop of `calculateCategoryIndex` over the
category-filtered market list. -/
def marketLoop (cats : List CategoryCfg) (now : ℚ) (ms : List MarketSummary) : ℚ × ℚ :=
  ms.foldl
    (fun acc m =>
      ((acc.1 + (marketContribution cats now m).1, acc.2 + (marketContribution cats now m).2)))
    (0, 0)

/-- `SimpleCryptoIndex.calculateCategoryIndex(category, keywords, markets)`:
`null` when no market matches the keywords or the accumulated weight is not
positive, else the weighted average probability. -/
def calculateCategoryIndex (cats : List CategoryCfg) (now : ℚ) (keywords : List String)
    (markets : List MarketSummary) : Option ℚ :=
  let categoryMarkets := markets.filter (matchesCategory keywords)
  if categoryMarkets.isEmpty then none
  else
    let s := marketLoop cats now categoryMarkets
    if 0 < s.2 then some (s.1 / s.2) else none

/-- One step of the per-category loop in `calculateIndex`: record the
category's index (null or not) and, when non-null, add
`categoryIndex × categoryWeight` and `categoryWeight` to the running sums. -/
def categoryStep (cats : List CategoryCfg) (now : ℚ) (markets : List MarketSummary)
    (acc : List (String × Option ℚ) × ℚ × ℚ) (c : CategoryCfg) :
    List (String × Option ℚ) × ℚ × ℚ :=
  let ci := calculateCategoryIndex cats now c.keywords markets
  (acc.1 ++ [(c.name, ci)],
   match ci with
   | some p => acc.2.1 + p * c.weight
   | none => acc.2.1,
   match ci with
   | some _ => acc.2.2 + c.weight
   | none => acc.2.2)

/-- The full per-category loop of `calculateIndex`: the recorded category
indices, `totalWeightedProbability` and `totalWeight`. -/
def categoryLoop (cats : List CategoryCfg) (now : ℚ) (markets : List MarketSummary) :
    List (String × Option ℚ) × ℚ × ℚ :=
  cats.foldl (categoryStep cats now markets) ([], 0, 0)

/-- One history entry (`{timestamp, value, probability}`). -/
structure HistEntry where
  timestamp : ℚ
  value : ℚ
  probability : ℚ
deriving DecidableEq

/-- The mutable state of a `SimpleCryptoIndex` instance that `calculateIndex`
touches. -/
structure IndexState where
  currentIndex : ℚ
  historicalValues : List HistEntry
  categoryIndices : List (String × Option ℚ)
  lastUpdate : Option ℚ
deriving DecidableEq

/-- The constructor's state initialisation:
`currentIndex = baselineValue`, empty history, no categories, no update. -/
def initState (cfg : Config) : IndexState :=
  ⟨cfg.baselineValue, [], [], none⟩

/-- The markets a tick works on: the crypto-filtered batch, aggregated. -/
def processedMarkets (trades : List TradeRecord) : List MarketSummary :=
  processCryptoTrades (filterCryptoTrades trades)

/-- `(categoryIndices, totalWeightedProbability, totalWeight)` of one tick. -/
def loopResult (cfg : Config) (now : ℚ) (trades : List TradeRecord) :
    List (String × Option ℚ) × ℚ × ℚ :=
  categoryLoop cfg.categories now (processedMarkets trades)

/-- One tick of `SimpleCryptoIndex.calculateIndex` on an already-fetched
trade batch (the fetch itself is the out-of-scope collaborator; a failed
fetch aborts before any of this runs).  `now` is the tick's clock reading in
milliseconds.  Mirrors the source exactly: early return when the crypto
filter leaves nothing; otherwise compute category indices and the weighted
sums; when `totalWeight > 0` set the raw index, push a history entry, prune
the window and smooth; in all non-early-return cases overwrite
`categoryIndices` and `lastUpdate`. -/
def calculateIndex (cfg : Config) (st : IndexState) (now : ℚ)
    (trades : List TradeRecord) : IndexState :=
  if (filterCryptoTrades trades).isEmpty then st
  else
    let res := loopResult cfg now trades
    if 0 < res.2.2 then
      let overallProbability := res.2.1 / res.2.2
      let raw := cfg.baselineValue + (overallProbability - 50)
      let hist1 := st.historicalValues ++ [⟨now, raw, overallProbability⟩]
      let hist2 := hist1.filter (fun e => decide (now - cfg.smoothingPeriod ≤ e.timestamp))
      let idx :=
        if 0 < hist2.length then (hist2.map HistEntry.value).sum / (hist2.length : ℚ)
        else raw
      { currentIndex := idx
        historicalValues := hist2
        categoryIndices := res.1
        lastUpdate := some now }
    else
      { st with categoryIndices := res.1, lastUpdate := some now }

end Simple

/-- The final-index formula of `CPMI_Final.calculateIndex`
(`baselineValue + (overallProbability × timeDecayFactor − 50)`), the one
variant that applies a multiplicative adjustment factor to the overall
probability before converting to the 100-baseline scale. -/
def adjustedRawIndex (baseline p d : ℚ) : ℚ :=
  baseline + (p * d - 50)

/-- What `processCryptoTrades` guarantees about each produced summary,
relative to the batch `pre` processed so far: the side counts add up to the
number of the market's trades, the market has at least one trade, `lastTrade`
is the last trade routed to it, and its trade list is a sublist of the batch. -/
def AggInv (pre : List TradeRecord) (m : MarketSummary) : Prop :=
  m.buyTrades + m.sellTrades = m.trades.length ∧
  m.trades ≠ [] ∧
  m.lastTrade = m.trades.getLast? ∧
  m.trades.Sublist pre

namespace Simple

/-- `p × w` term a category adds for one configured category. -/
def weightedTerm (cats : List CategoryCfg) (now : ℚ) (markets : List MarketSummary)
    (c : CategoryCfg) : ℚ :=
  match calculateCategoryIndex cats now c.keywords markets with
  | some p => p * c.weight
  | none => 0

/-- weight term a category adds when its index is non-null. -/
def activeTerm (cats : List CategoryCfg) (now : ℚ) (markets : List MarketSummary)
    (c : CategoryCfg) : ℚ :=
  match calculateCategoryIndex cats now c.keywords markets with
  | some _ => c.weight
  | none => 0

end Simple

/-! ### Concrete instances used by witnesses and counterexamples -/

/-- A sentiment-fallback market's only trade, with size `0` (a zero-size
trade is allowed by the data model: `size: float ≥ 0`). -/
def c1NanTrade : TradeRecord :=
  ⟨"c1", "crypto meme", "", "", "BUY", 0, 1/2, 100⟩

/-- A sentiment-fallback market's only trade, with positive size. -/
def c1OkTrade : TradeRecord :=
  ⟨"c2", "crypto meme", "", "", "BUY", 10, 1/2, 100⟩

/-- The summary `processCryptoTrades [c1OkTrade]` produces. -/
def c1OkMarket : MarketSummary :=
  ⟨"c2", "crypto meme", "", "", [c1OkTrade], 10, 5, 10, 0, 1, 0, 1/2, some c1OkTrade⟩

/-- The spec's example scenario, first trade: `{side:BUY, size:10, price:0.6}`. -/
def c4Trade1 : TradeRecord :=
  ⟨"btc-100k", "Will Bitcoin reach $100k?", "", "", "BUY", 10, 6/10, 100⟩

/-- The spec's example scenario, second trade: `{side:SELL, size:5, price:0.6}`. -/
def c4Trade2 : TradeRecord :=
  ⟨"btc-100k", "Will Bitcoin reach $100k?", "", "", "SELL", 5, 6/10, 101⟩

/-- Two trades of one market arriving in decreasing-timestamp order. -/
def c8Late : TradeRecord := ⟨"c8", "btc market order test", "", "", "BUY", 1, 1/2, 100⟩

/-- The second, earlier-timestamped trade of the same market. -/
def c8Early : TradeRecord := ⟨"c8", "btc market order test", "", "", "SELL", 1, 1/2, 50⟩

/-- Two trades of one market in ascending-timestamp order. -/
def c8SortedA : TradeRecord := ⟨"c8s", "btc market order test", "", "", "BUY", 1, 1/2, 10⟩

/-- The later trade of the sorted batch. -/
def c8SortedB : TradeRecord := ⟨"c8s", "btc market order test", "", "", "SELL", 1, 1/2, 20⟩

/-- The summary `processCryptoTrades [c8SortedA, c8SortedB]` produces. -/
def c8SortedMarket : MarketSummary :=
  ⟨"c8s", "btc market order test", "", "",
   [c8SortedA, c8SortedB], 2, 1, 1, 1, 1, 1, 1/2, some c8SortedB⟩

/-- A one-category configuration whose keyword matches nothing below. -/
def c2Cfg : Simple.Config := ⟨[⟨"zcat", ["zzz"], 1⟩], 100, 3600000⟩

/-- A crypto trade (matches the `"crypto"` filter keyword) that matches no
configured category. -/
def c2Trade : TradeRecord := ⟨"m", "crypto stuff", "", "", "BUY", 1, 1/2, 100⟩

/-- A state with a non-baseline index, one history entry, and no
`lastUpdate`, to make any overwrite observable. -/
def c2State : Simple.IndexState := ⟨123, [⟨5, 110, 60⟩], [], none⟩

/-- Two categories weighted 0.4/0.6 — the spec's overall-index example. -/
def c5Cfg : Simple.Config :=
  ⟨[⟨"cata", ["bitcoin"], 4/10⟩, ⟨"catb", ["ethereum"], 6/10⟩], 100, 3600000⟩

/-- One market per category, with average prices 0.7 and 0.5, so that the
category probabilities are 70 and 50. -/
def c5Trades : List TradeRecord :=
  [⟨"m1", "bitcoin", "", "", "BUY", 10, 7/10, 1000000⟩,
   ⟨"m2", "ethereum", "", "", "BUY", 10, 5/10, 1000000⟩]

/-- A configuration with a 1000 ms smoothing window. -/
def c6Cfg : Simple.Config := ⟨[⟨"cata", ["bitcoin"], 1⟩], 100, 1000⟩

/-- The boundary tick instant for the smoothing-window witness. -/
def c6Now : ℚ := 10000

/-- History entry `ε = 1` inside the window (`now − window + 1`). -/
def c6Old : Simple.HistEntry := ⟨9001, 101, 51⟩

/-- History entry `ε = 1` outside the window (`now − window − 1`). -/
def c6Bad : Simple.HistEntry := ⟨8999, 102, 52⟩

/-- A state holding both boundary entries. -/
def c6State : Simple.IndexState := ⟨100, [c6Bad, c6Old], [], none⟩

/-- A single fresh bitcoin trade for the smoothing-window witness. -/
def c6Trades : List TradeRecord := [⟨"m1", "bitcoin", "", "", "BUY", 10, 7/10, 10⟩]

/-- A market whose title contains no expiration date and no period keyword,
so the heuristic time adjustment takes its `0.7` default. -/
def c5CpmiMarket : MarketSummary :=
  ⟨"m5", "btc moon soon", "", "", [], 10, 6, 10, 0, 1, 0, 6/10, none⟩

/-- A market whose title matches both a bitcoin and an etf keyword list. -/
def c9Market : MarketSummary :=
  ⟨"x", "bitcoin etf approval", "", "", [], 10, 5, 10, 0, 1, 0, 1/2, none⟩

/-- The boundedness invariant of claim C10: the current index value and every
buffered raw value stay within 50 points of the baseline. -/
def IndexInv (b : ℚ) (st : Simple.IndexState) : Prop :=
  (b - 50 ≤ st.currentIndex ∧ st.currentIndex ≤ b + 50) ∧
  ∀ e ∈ st.historicalValues, b - 50 ≤ e.value ∧ e.value ≤ b + 50

/-! ### Proof infrastructure -/

theorem jsClamp_nonneg (x : ℚ) : 0 ≤ jsClamp x :=
  le_min (le_max_right x 0) (by norm_num)

theorem jsClamp_le_hundred (x : ℚ) : jsClamp x ≤ 100 :=
  min_le_right _ _

theorem aggInv_mono {pre pre' : List TradeRecord} (h : pre.Sublist pre')
    {m : MarketSummary} (hm : AggInv pre m) : AggInv pre' m :=
  ⟨hm.1, hm.2.1, hm.2.2.1, hm.2.2.2.trans h⟩

theorem addTrade_inv {pre : List TradeRecord} {m : MarketSummary} (t : TradeRecord)
    (h : AggInv pre m) : AggInv (pre ++ [t]) (addTrade m t) := by
  obtain ⟨hc, -, -, hs⟩ := h
  refine ⟨?_, by simp [addTrade], ?_, ?_⟩
  · by_cases hb : t.side = "BUY" <;> simp [addTrade, hb, hc] <;> omega
  · simp [addTrade, List.getLast?_concat]
  · simpa [addTrade] using hs.append (List.Sublist.refl [t])

theorem addTrade_empty_inv (pre : List TradeRecord) (t : TradeRecord) :
    AggInv (pre ++ [t]) (addTrade (emptyMarket t) t) := by
  refine ⟨?_, by simp [addTrade, emptyMarket], ?_, ?_⟩
  · by_cases hb : t.side = "BUY" <;> simp [addTrade, emptyMarket, hb]
  · simp [addTrade, emptyMarket]
  · simp [addTrade, emptyMarket]

theorem insertTrade_inv :
    ∀ (acc : List MarketSummary) (t : TradeRecord) (pre : List TradeRecord),
      (∀ m ∈ acc, AggInv pre m) →
      ∀ m ∈ insertTrade acc t, AggInv (pre ++ [t]) m
  | [], t, pre, _ => by
      intro m hm
      simp only [insertTrade, List.mem_singleton] at hm
      subst hm
      exact addTrade_empty_inv pre t
  | m0 :: rest, t, pre, h => by
      intro m hm
      simp only [insertTrade] at hm
      split at hm
      · rcases List.mem_cons.mp hm with rfl | hmem
        · exact addTrade_inv t (h m0 (List.mem_cons_self _ _))
        · exact aggInv_mono (List.sublist_append_left pre [t])
            (h m (List.mem_cons_of_mem _ hmem))
      · rcases List.mem_cons.mp hm with rfl | hmem
        · exact aggInv_mono (List.sublist_append_left pre [t])
            (h m (List.mem_cons_self _ _))
        · exact insertTrade_inv rest t pre
            (fun x hx => h x (List.mem_cons_of_mem _ hx)) m hmem

theorem foldl_insertTrade_inv :
    ∀ (ts : List TradeRecord) (acc : List MarketSummary) (pre : List TradeRecord),
      (∀ m ∈ acc, AggInv pre m) →
      ∀ m ∈ ts.foldl insertTrade acc, AggInv (pre ++ ts) m
  | [], acc, pre, h => by simpa using h
  | t :: ts, acc, pre, h => by
      intro m hm
      have h' := insertTrade_inv acc t pre h
      have := foldl_insertTrade_inv ts (insertTrade acc t) (pre ++ [t]) h' m
        (by simpa [List.foldl] using hm)
      simpa [List.append_assoc] using this

theorem finalizeMarket_inv {pre : List TradeRecord} {m : MarketSummary}
    (h : AggInv pre m) : AggInv pre (finalizeMarket m) := by
  unfold finalizeMarket
  split <;> simpa [AggInv] using h

/-- Every summary built by the trade aggregator satisfies the invariant. -/
theorem processCryptoTrades_inv (ts : List TradeRecord) (m : MarketSummary)
    (h : m ∈ processCryptoTrades ts) : AggInv ts m := by
  obtain ⟨m', hm', rfl⟩ := List.mem_map.mp h
  exact finalizeMarket_inv
    (by simpa using foldl_insertTrade_inv ts [] [] (by simp) m' hm')

theorem mem_of_getLast?_eq :
    ∀ (l : List TradeRecord) (a : TradeRecord), l.getLast? = some a → a ∈ l
  | [x], a, h => by
      simp only [List.getLast?_singleton, Option.some.injEq] at h
      simp [h]
  | x :: y :: l, a, h => by
      rw [List.getLast?_cons_cons] at h
      exact List.mem_cons_of_mem _ (mem_of_getLast?_eq (y :: l) a h)

theorem le_getLast_timestamp :
    ∀ (l : List TradeRecord) (a : TradeRecord), l.getLast? = some a →
      l.Pairwise (fun x y => x.timestamp ≤ y.timestamp) →
      ∀ t ∈ l, t.timestamp ≤ a.timestamp
  | [x], a, h, _, t, ht => by
      simp only [List.getLast?_singleton, Option.some.injEq] at h
      simp only [List.mem_singleton] at ht
      subst h; subst ht; exact le_refl _
  | x :: y :: l, a, h, hp, t, ht => by
      rw [List.getLast?_cons_cons] at h
      rcases List.mem_cons.mp ht with rfl | hmem
      · exact (List.pairwise_cons.mp hp).1 a (mem_of_getLast?_eq _ a h)
      · exact le_getLast_timestamp (y :: l) a h (List.pairwise_cons.mp hp).2 t hmem

theorem card_mul_le_sum (lo : ℚ) :
    ∀ (l : List ℚ), (∀ x ∈ l, lo ≤ x) → (l.length : ℚ) * lo ≤ l.sum
  | [], _ => by simp
  | x :: l, h => by
      have ih := card_mul_le_sum lo l (fun y hy => h y (List.mem_cons_of_mem _ hy))
      have hx := h x (List.mem_cons_self _ _)
      simp only [List.length_cons, List.sum_cons]
      push_cast
      linarith

theorem sum_le_card_mul (hi : ℚ) :
    ∀ (l : List ℚ), (∀ x ∈ l, x ≤ hi) → l.sum ≤ (l.length : ℚ) * hi
  | [], _ => by simp
  | x :: l, h => by
      have ih := sum_le_card_mul hi l (fun y hy => h y (List.mem_cons_of_mem _ hy))
      have hx := h x (List.mem_cons_self _ _)
      simp only [List.length_cons, List.sum_cons]
      push_cast
      linarith

theorem mean_bounds (l : List ℚ) (lo hi : ℚ) (hne : l ≠ [])
    (h : ∀ x ∈ l, lo ≤ x ∧ x ≤ hi) :
    lo ≤ l.sum / (l.length : ℚ) ∧ l.sum / (l.length : ℚ) ≤ hi := by
  have hpos : (0 : ℚ) < (l.length : ℚ) := by
    exact_mod_cast List.length_pos.mpr hne
  constructor
  · rw [le_div_iff₀ hpos]
    calc lo * (l.length : ℚ) = (l.length : ℚ) * lo := by ring
    _ ≤ l.sum := card_mul_le_sum lo l (fun x hx => (h x hx).1)
  · rw [div_le_iff₀ hpos]
    calc l.sum ≤ (l.length : ℚ) * hi := sum_le_card_mul hi l (fun x hx => (h x hx).2)
    _ = hi * (l.length : ℚ) := by ring

namespace Simple

theorem foldl_marketLoop_eq (cats : List CategoryCfg) (now : ℚ) :
    ∀ (ms : List MarketSummary) (init : ℚ × ℚ),
      ms.foldl
        (fun acc m =>
          ((acc.1 + (marketContribution cats now m).1,
            acc.2 + (marketContribution cats now m).2))) init =
      (init.1 + (ms.map fun m => (marketContribution cats now m).1).sum,
       init.2 + (ms.map fun m => (marketContribution cats now m).2).sum)
  | [], init => by simp
  | m :: ms, init => by
      rw [List.foldl_cons, foldl_marketLoop_eq cats now ms]
      simp only [List.map_cons, List.sum_cons]
      refine Prod.ext ?_ ?_ <;> simp <;> ring

theorem marketLoop_eq (cats : List CategoryCfg) (now : ℚ) (ms : List MarketSummary) :
    marketLoop cats now ms =
      ((ms.map fun m => (marketContribution cats now m).1).sum,
       (ms.map fun m => (marketContribution cats now m).2).sum) := by
  unfold marketLoop
  rw [foldl_marketLoop_eq]
  simp

theorem foldl_categoryLoop_eq (cats : List CategoryCfg) (now : ℚ)
    (markets : List MarketSummary) :
    ∀ (l : List CategoryCfg) (init : List (String × Option ℚ) × ℚ × ℚ),
      l.foldl (categoryStep cats now markets) init =
      (init.1 ++ l.map (fun c => (c.name, calculateCategoryIndex cats now c.keywords markets)),
       init.2.1 + (l.map (weightedTerm cats now markets)).sum,
       init.2.2 + (l.map (activeTerm cats now markets)).sum)
  | [], init => by simp
  | c :: l, init => by
      rw [List.foldl_cons, foldl_categoryLoop_eq cats now markets l]
      simp only [List.map_cons, List.sum_cons, categoryStep, weightedTerm, activeTerm]
      cases hci : calculateCategoryIndex cats now c.keywords markets <;>
        simp [hci] <;> constructor <;> ring

theorem categoryLoop_eq (cats : List CategoryCfg) (now : ℚ) (markets : List MarketSummary) :
    categoryLoop cats now markets =
      (cats.map (fun c => (c.name, calculateCategoryIndex cats now c.keywords markets)),
       (cats.map (weightedTerm cats now markets)).sum,
       (cats.map (activeTerm cats now markets)).sum) := by
  unfold categoryLoop
  rw [foldl_categoryLoop_eq]
  simp

end Simple

theorem bounds_of_cases {x : ℚ} (h : x = 50 ∨ ∃ y, x = jsClamp y) :
    0 ≤ x ∧ x ≤ 100 := by
  rcases h with rfl | ⟨y, rfl⟩
  · norm_num
  · exact ⟨jsClamp_nonneg y, jsClamp_le_hundred y⟩

theorem extractBinaryProbability_bounds (m : MarketSummary) :
    0 ≤ Refined.extractBinaryProbability m ∧ Refined.extractBinaryProbability m ≤ 100 := by
  unfold Refined.extractBinaryProbability
  split <;> exact ⟨jsClamp_nonneg _, jsClamp_le_hundred _⟩

theorem extractPricePredictionProbability_bounds (m : MarketSummary) :
    0 ≤ Refined.extractPricePredictionProbability m ∧
      Refined.extractPricePredictionProbability m ≤ 100 := by
  refine bounds_of_cases ?_
  unfold Refined.extractPricePredictionProbability
  dsimp only
  repeat' split
  all_goals first | exact Or.inl rfl | exact Or.inr ⟨_, rfl⟩

theorem extractRangeProbability_bounds (m : MarketSummary) :
    0 ≤ Refined.extractRangeProbability m ∧ Refined.extractRangeProbability m ≤ 100 := by
  refine bounds_of_cases ?_
  unfold Refined.extractRangeProbability
  dsimp only
  repeat' split
  all_goals first | exact Or.inl rfl | exact Or.inr ⟨_, rfl⟩

theorem extractDirectionalProbability_bounds (m : MarketSummary) :
    0 ≤ Refined.extractDirectionalProbability m ∧
      Refined.extractDirectionalProbability m ≤ 100 := by
  refine bounds_of_cases ?_
  unfold Refined.extractDirectionalProbability
  dsimp only
  split
  · exact Or.inr ⟨_, rfl⟩
  · exact Or.inr ⟨_, rfl⟩

theorem extractSentimentProbability_bounds (m : MarketSummary) (p : ℚ)
    (h : Refined.extractSentimentProbability m = some p) : 0 ≤ p ∧ p ≤ 100 := by
  unfold Refined.extractSentimentProbability at h
  repeat' split at h
  all_goals simp only [Option.some.injEq, reduceCtorEq] at h
  all_goals subst h
  all_goals first
    | exact ⟨jsClamp_nonneg _, jsClamp_le_hundred _⟩
    | (constructor <;> norm_num)

theorem extractSentimentProbability_isSome (m : MarketSummary)
    (h1 : m.buyTrades + m.sellTrades ≠ 0) (h2 : m.buyVolume + m.sellVolume ≠ 0) :
    ∃ p, Refined.extractSentimentProbability m = some p := by
  unfold Refined.extractSentimentProbability
  rw [if_neg h1, if_neg h2]
  exact ⟨_, rfl⟩

theorem calculateBullishProbability_bounds (m : MarketSummary) (p : ℚ)
    (h : Refined.calculateBullishProbability m = some p) : 0 ≤ p ∧ p ≤ 100 := by
  unfold Refined.calculateBullishProbability at h
  split at h
  · obtain rfl : _ = p := Option.some.inj h
    exact extractBinaryProbability_bounds m
  · obtain rfl : _ = p := Option.some.inj h
    exact extractPricePredictionProbability_bounds m
  · obtain rfl : _ = p := Option.some.inj h
    exact extractRangeProbability_bounds m
  · obtain rfl : _ = p := Option.some.inj h
    exact extractDirectionalProbability_bounds m
  · exact extractSentimentProbability_bounds m p h

/-! ### Claim C1 -/

/-- C1 (counterexample): a summary the trade aggregator produces from one
zero-size BUY trade of a sentiment-fallback market satisfies all of the
claim's preconditions (`avgPrice = 0 ∈ [0,1]`, volumes and trade counts
non-negative), yet the extracted bullish probability is `NaN` (`none`),
because the buy-volume ratio is an unguarded `0/0`. -/
theorem c1_sentiment_nan_counterexample :
    (processCryptoTrades [c1NanTrade]).map
        (fun m => (m.avgPrice, m.totalVolume, Refined.calculateBullishProbability m)) =
      [(0, 0, (none : Option ℚ))] ∧
    (processCryptoTrades [c1NanTrade]).map
        (fun m => (m.buyVolume, m.sellVolume, m.buyTrades, m.sellTrades)) =
      [(0, 0, 1, 0)] :=
  ⟨by decide, by decide⟩

/-- C1 (amended): every numeric probability the `RefinedCryptoIndex`
extractor returns lies in `[0,100]` for every market type; and for every
summary the trade aggregator produces, the result is a number (never `NaN`)
provided the market's total traded volume is positive.  (The buy-trade-count
ratio of the sentiment fallback is never `0/0` for aggregator-produced
summaries, since every summary holds at least one trade; the buy-volume
ratio is `0/0` — `NaN`, not the claimed neutral `0.5` — exactly when all of
the market's trades have size zero.) -/
theorem c1_probability_bounds :
    (∀ (m : MarketSummary) (p : ℚ),
       Refined.calculateBullishProbability m = some p → 0 ≤ p ∧ p ≤ 100) ∧
    (∀ (ts : List TradeRecord) (m : MarketSummary), m ∈ processCryptoTrades ts →
       0 < m.buyVolume + m.sellVolume →
       ∃ p, Refined.calculateBullishProbability m = some p ∧ 0 ≤ p ∧ p ≤ 100) := by
  refine ⟨calculateBullishProbability_bounds, ?_⟩
  intro ts m hm hvol
  obtain ⟨hcount, hne, -, -⟩ := processCryptoTrades_inv ts m hm
  have h1 : m.buyTrades + m.sellTrades ≠ 0 := by
    rw [hcount]
    simpa using hne
  have hsome : ∃ p, Refined.calculateBullishProbability m = some p := by
    unfold Refined.calculateBullishProbability
    split
    · exact ⟨_, rfl⟩
    · exact ⟨_, rfl⟩
    · exact ⟨_, rfl⟩
    · exact ⟨_, rfl⟩
    · exact extractSentimentProbability_isSome m h1 (ne_of_gt hvol)
  obtain ⟨p, hp⟩ := hsome
  exact ⟨p, hp, calculateBullishProbability_bounds m p hp⟩

/-- C1 witness: the amended theorem applied to the one-positive-trade
sentiment market. -/
theorem c1_probability_bounds_witness :
    c1OkMarket ∈ processCryptoTrades [c1OkTrade] ∧
    0 < c1OkMarket.buyVolume + c1OkMarket.sellVolume ∧
    ∃ p, Refined.calculateBullishProbability c1OkMarket = some p ∧ 0 ≤ p ∧ p ≤ 100 :=
  ⟨by decide, by decide,
   c1_probability_bounds.2 [c1OkTrade] c1OkMarket (by decide) (by decide)⟩

/-! ### Claim C4 -/

/-- C4 (counterexample): on the spec's example scenario — trades
`{BUY, 10, 0.6}` and `{SELL, 5, 0.6}` for "Will Bitcoin reach $100k?" — the
aggregator does give `avgPrice = 0.6` and `RefinedCryptoIndex` does classify
the title as binary, but the extracted bullish probability is `40.0`, not the
claimed `60.0`. -/
theorem c4_example_counterexample :
    (processCryptoTrades [c4Trade1, c4Trade2]).map
        (fun m => (m.avgPrice, Refined.classifyMarketType m.title,
          Refined.calculateBullishProbability m)) =
      [(3/5, "binary", some 40)] ∧ some (40 : ℚ) ≠ some 60 :=
  ⟨by decide, by decide⟩

/-- C4 (amended): `avgPrice = 0.6` and the title classifies as binary in
`RefinedCryptoIndex`, but `"reach"` is NOT in that class's bullish keyword
set — both keyword counts are `0`, the outcome is detected as not bullish,
and the extracted probability is `(1 − 0.6) × 100 = 40.0`.  The repository's
probability-extraction test script (whose `isBullishOutcomeRefined` does list
`"reach"` as bullish) yields `60.0` on the same market, and `CPMI_Final`
classifies the same title as `price_target`, not binary. -/
theorem c4_example_amended :
    (processCryptoTrades [c4Trade1, c4Trade2]).map
        (fun m => (m.avgPrice, Refined.classifyMarketType m.title,
          Refined.isBullishOutcome (jsToLower m.title),
          Refined.calculateBullishProbability m)) =
      [(3/5, "binary", false, some 40)] ∧
    (processCryptoTrades [c4Trade1, c4Trade2]).map
        (fun m => (CPMI.classifyMarketType m.title,
          Script.isBullishOutcomeRefined m.title,
          Script.extractBinaryProbabilityRefined m)) =
      [("price_target", true, 60)] :=
  ⟨by decide, by decide⟩

/-! ### Claim C8 -/

theorem getLast?_isSome_of_ne_nil :
    ∀ (l : List TradeRecord), l ≠ [] → ∃ a, l.getLast? = some a
  | [x], _ => ⟨x, rfl⟩
  | x :: y :: l, _ => by
      obtain ⟨a, ha⟩ := getLast?_isSome_of_ne_nil (y :: l) (by simp)
      exact ⟨a, by rw [List.getLast?_cons_cons]; exact ha⟩

/-- C8 (counterexample): for a two-trade batch of one market arriving in
decreasing-timestamp order, the aggregator's `lastTrade` is the trade with
timestamp `50` even though the market holds a trade with timestamp `100`:
`lastTrade` is NOT the maximum-timestamp trade for arbitrary batch order. -/
theorem c8_lastTrade_counterexample :
    (processCryptoTrades [c8Late, c8Early]).map
        (fun m => (m.lastTrade.map TradeRecord.timestamp,
          m.trades.map TradeRecord.timestamp)) =
      [(some 50, [100, 50])] ∧ (50 : ℚ) < 100 :=
  ⟨by decide, by decide⟩

/-- C8 (amended): `market.lastTrade = trade` runs unconditionally on every
routed trade, so `lastTrade` is the LAST trade of the market in batch
(processing) order — the last element of the market's trade list — not the
maximum-timestamp trade.  It coincides with the maximum-timestamp trade
whenever the batch arrives in non-decreasing timestamp order. -/
theorem c8_lastTrade_amended (ts : List TradeRecord) (m : MarketSummary)
    (hm : m ∈ processCryptoTrades ts)
    (hs : ts.Pairwise (fun a b => a.timestamp ≤ b.timestamp)) :
    m.lastTrade = m.trades.getLast? ∧
    ∃ lt, m.lastTrade = some lt ∧ ∀ t ∈ m.trades, t.timestamp ≤ lt.timestamp := by
  obtain ⟨-, hne, hlast, hsub⟩ := processCryptoTrades_inv ts m hm
  refine ⟨hlast, ?_⟩
  obtain ⟨lt, hlt⟩ := getLast?_isSome_of_ne_nil m.trades hne
  have hp : m.trades.Pairwise (fun a b => a.timestamp ≤ b.timestamp) :=
    hs.sublist hsub
  exact ⟨lt, by rw [hlast, hlt], le_getLast_timestamp m.trades lt hlt hp⟩

/-- C8 witness: the amended theorem applied to a sorted two-trade batch. -/
theorem c8_lastTrade_amended_witness :
    c8SortedMarket ∈ processCryptoTrades [c8SortedA, c8SortedB] ∧
    ([c8SortedA, c8SortedB] : List TradeRecord).Pairwise
      (fun a b => a.timestamp ≤ b.timestamp) ∧
    (c8SortedMarket.lastTrade = c8SortedMarket.trades.getLast? ∧
     ∃ lt, c8SortedMarket.lastTrade = some lt ∧
       ∀ t ∈ c8SortedMarket.trades, t.timestamp ≤ lt.timestamp) :=
  ⟨by decide, by decide,
   c8_lastTrade_amended [c8SortedA, c8SortedB] c8SortedMarket (by decide) (by decide)⟩

/-! ### Claim C7 -/

theorem binary_branch_merge (w q hp sy ps wn : Bool) (s1 s2 : String) :
    (if (w && (q || hp)) = true then s1 else if (w && (sy || ps || wn)) = true then s1 else s2) =
    (if (w && (q || hp || ps || wn || sy)) = true then s1 else s2) := by
  cases w <;> cases q <;> cases hp <;> cases sy <;> cases ps <;> cases wn <;> simp

theorem classifyByCodeRuleList_ite (title : String) : classifyByCodeRuleList title =
    (if rangeRule (jsToLower title) then "range"
     else if cpmiPriceTargetRule (jsToLower title) then "price_target"
     else if cpmiDirectionalRule (jsToLower title) then "direction"
     else if binaryRule (jsToLower title) then "binary"
     else "sentiment") := by
  unfold classifyByCodeRuleList codeMarketTypeRuleList
  dsimp only
  cases h1 : rangeRule (jsToLower title) <;>
    cases h2 : cpmiPriceTargetRule (jsToLower title) <;>
    cases h3 : cpmiDirectionalRule (jsToLower title) <;>
    cases h4 : binaryRule (jsToLower title) <;>
    simp [List.find?, h1, h2, h3, h4]

/-- C7 (counterexample): the classifiers do not apply the spec's rule list.
"Will Bitcoin touch $50k?" is `price_target` in `CPMI_Final` ("touch" is a
code-only verb) but `binary` under the spec's §4.1 rules; and the other
cited classifier, `RefinedCryptoIndex.classifyMarketType`, does not follow
the claimed priority order at all — it maps the range-shaped title
"bitcoin between $10 and $20" to `price_prediction` (its "$" check runs
before its range check) and its universal fallback is `"unknown"`, not
`sentiment`. -/
theorem c7_priority_counterexample :
    CPMI.classifyMarketType "Will Bitcoin touch $50k?" = "price_target" ∧
    classifyByRuleList "Will Bitcoin touch $50k?" = "binary" ∧
    classifyByRuleList "bitcoin between $10 and $20" = "range" ∧
    Refined.classifyMarketType "bitcoin between $10 and $20" = "price_prediction" ∧
    Refined.classifyMarketType "crypto stuff" = "unknown" :=
  ⟨by decide, by decide, by decide, by decide, by decide⟩

/-- C7 (amended): market-type classification is total and deterministic in
both cited classifiers (pure functions with a universal fallback —
`"sentiment"` in `CPMI_Final`, `"unknown"` in `RefinedCryptoIndex`).
`CPMI_Final.classifyMarketType` equals first-match-wins evaluation of the
ordered rule list range → price-target → directional → binary → sentiment
with the CODE's rules: its price-target verbs extend the spec's enumeration
with "go to", "touch", "fall to", "crash to", its directional rule also
accepts "up/down", and its two adjacent binary branches merge into the
spec's single binary rule "will" + ("?" ∨ "happen" ∨ "pass" ∨ "win" ∨
"say").  `RefinedCryptoIndex.classifyMarketType` uses a different rule set
and priority (binary first, then price, range, directional). -/
theorem c7_classify_first_match (title : String) :
    CPMI.classifyMarketType title = classifyByCodeRuleList title ∧
    CPMI.classifyMarketType title ∈
      (["range", "price_target", "direction", "binary", "sentiment"] : List String) ∧
    Refined.classifyMarketType title ∈
      (["binary", "price_prediction", "range", "directional", "unknown"] : List String) := by
  have key : CPMI.classifyMarketType title = classifyByCodeRuleList title := by
    rw [classifyByCodeRuleList_ite]
    unfold CPMI.classifyMarketType rangeRule cpmiPriceTargetRule cpmiDirectionalRule binaryRule
    dsimp only
    cases h1 : (jsIncludes (jsToLower title) "between" && jsIncludes (jsToLower title) "and" &&
        (jsIncludes (jsToLower title) "$" || jsIncludes (jsToLower title) "price")) <;>
      cases h2 : ((jsIncludes (jsToLower title) "reach" || jsIncludes (jsToLower title) "hit" ||
          jsIncludes (jsToLower title) "above" || jsIncludes (jsToLower title) "below" ||
          jsIncludes (jsToLower title) "dip to" || jsIncludes (jsToLower title) "go to" ||
          jsIncludes (jsToLower title) "touch" || jsIncludes (jsToLower title) "drop to" ||
          jsIncludes (jsToLower title) "fall to" || jsIncludes (jsToLower title) "crash to") &&
        (jsIncludes (jsToLower title) "$" || jsIncludes (jsToLower title) "price")) <;>
      cases h3 : (jsIncludes (jsToLower title) "up or down" ||
          jsIncludes (jsToLower title) "up/down" ||
          jsIncludes (jsToLower title) "bullish" || jsIncludes (jsToLower title) "bearish") <;>
      simp only [h1, h2, h3, Bool.false_eq_true, if_true, if_false]
    all_goals first
      | rfl
      | exact binary_branch_merge (jsIncludes (jsToLower title) "will")
          (jsIncludes (jsToLower title) "?") (jsIncludes (jsToLower title) "happen")
          (jsIncludes (jsToLower title) "say") (jsIncludes (jsToLower title) "pass")
          (jsIncludes (jsToLower title) "win") "binary" "sentiment"
  refine ⟨key, ?_, ?_⟩
  · rw [key, classifyByCodeRuleList_ite]
    cases rangeRule (jsToLower title) <;> cases cpmiPriceTargetRule (jsToLower title) <;>
      cases cpmiDirectionalRule (jsToLower title) <;> cases binaryRule (jsToLower title) <;>
      simp
  · unfold Refined.classifyMarketType
    dsimp only
    split_ifs <;> simp

/-! ### Claim C2 -/

/-- C2 (counterexample): a tick with crypto trades but no category hit has
zero active weight; `currentIndexValue` and the history buffer are left
alone, but `categoryIndices` is overwritten (with the all-null map) and
`lastUpdateTimestamp` is set to the tick time — they are NOT left unchanged
as the claim states. -/
theorem c2_zero_weight_counterexample :
    (Simple.loopResult c2Cfg 1000 [c2Trade]).1 = [("zcat", (none : Option ℚ))] ∧
    (Simple.loopResult c2Cfg 1000 [c2Trade]).2.2 = 0 ∧
    (Simple.calculateIndex c2Cfg c2State 1000 [c2Trade]).currentIndex =
      c2State.currentIndex ∧
    (Simple.calculateIndex c2Cfg c2State 1000 [c2Trade]).historicalValues =
      c2State.historicalValues ∧
    (Simple.calculateIndex c2Cfg c2State 1000 [c2Trade]).lastUpdate ≠ c2State.lastUpdate ∧
    (Simple.calculateIndex c2Cfg c2State 1000 [c2Trade]).categoryIndices ≠
      c2State.categoryIndices := by
  decide

/-- C2 (amended): when no category yields a non-null probability on a
non-empty crypto batch, the tick skips the index/history steps —
`currentIndexValue` keeps its previous value and nothing is appended to or
pruned from the history buffer — but it still overwrites `categoryIndices`
with the freshly computed (all-null) map and sets `lastUpdateTimestamp` to
the current time. -/
theorem c2_zero_weight_skips_index_steps (cfg : Simple.Config)
    (st : Simple.IndexState) (now : ℚ) (trades : List TradeRecord)
    (hne : Simple.filterCryptoTrades trades ≠ [])
    (hnull : ∀ c ∈ cfg.categories,
      Simple.calculateCategoryIndex cfg.categories now c.keywords
        (Simple.processedMarkets trades) = none) :
    Simple.calculateIndex cfg st now trades =
      { st with categoryIndices := (Simple.loopResult cfg now trades).1,
                lastUpdate := some now } := by
  have hw : (Simple.loopResult cfg now trades).2.2 = 0 := by
    unfold Simple.loopResult
    rw [Simple.categoryLoop_eq]
    dsimp only
    refine List.sum_eq_zero ?_
    intro x hx
    obtain ⟨c, hc, rfl⟩ := List.mem_map.mp hx
    unfold Simple.activeTerm
    rw [hnull c hc]
  unfold Simple.calculateIndex
  rw [if_neg (by simpa [List.isEmpty_iff] using hne)]
  dsimp only
  rw [if_neg (by rw [hw]; exact lt_irrefl 0)]

/-- C2 witness: the amended theorem at the concrete no-category-hit tick. -/
theorem c2_zero_weight_skips_index_steps_witness :
    Simple.filterCryptoTrades [c2Trade] ≠ [] ∧
    Simple.calculateIndex c2Cfg c2State 1000 [c2Trade] =
      { c2State with categoryIndices := (Simple.loopResult c2Cfg 1000 [c2Trade]).1,
                     lastUpdate := some 1000 } :=
  ⟨by decide,
   c2_zero_weight_skips_index_steps c2Cfg c2State 1000 [c2Trade] (by decide) (by decide)⟩

/-! ### Claim C5 -/

/-- C5 (counterexample): the raw-index formula claimed for every tick fails
on the cited `CPMI_Final.calculateIndex`, which assigns
`baselineValue + (overallProbability × timeDecayFactor − 50)` (embedded as
`adjustedRawIndex` from its lines 336–338) to the appended entry.  For a
batch whose one market title carries no expiration date and no period
keyword, the decay factor is the heuristic default `0.7`
(`getHeuristicTimeAdjustment`), so at the claim's own example overall
probability `58` the appended value is `100 + (58 × 0.7 − 50) = 90.6`, not
`100 + (58 − 50) = 108`.  (The rest of CPMI's weighting pipeline —
`log10`-scaled volume weights and `sqrt`-based decay for dated titles — is
transcendental, so the divergence is exhibited at the final-index formula
with the code's rational decay path.) -/
theorem c5_cpmi_decay_counterexample :
    CPMI.getHeuristicTimeAdjustment c5CpmiMarket = 7/10 ∧
    adjustedRawIndex 100 58 (CPMI.getHeuristicTimeAdjustment c5CpmiMarket) = 453/5 ∧
    adjustedRawIndex 100 58 (CPMI.getHeuristicTimeAdjustment c5CpmiMarket) ≠
      100 + (58 - 50) :=
  ⟨by decide, by decide, by decide⟩

/-- C5 (amended): in the `SimpleCryptoIndex`/`RefinedCryptoIndex` engines —
whose ticks are identical here — every tick with positive active weight
appends a history entry whose value is the raw index
`baselineValue + (overallProbability − 50)`, where `overallProbability` is
`totalWeightedProbability / totalWeight` over the non-null categories (the
0.4/0.6, 70/50 example gives 58 and 108).  `CPMI_Final.calculateIndex`
instead appends `baselineValue + (overallProbability × timeDecayFactor −
50)`, with category terms additionally scaled by volume × time combined
weights, so the claimed formula does not hold for that variant. -/
theorem c5_raw_index_formula (cfg : Simple.Config) (st : Simple.IndexState)
    (now : ℚ) (trades : List TradeRecord)
    (hne : Simple.filterCryptoTrades trades ≠ [])
    (hsp : 0 ≤ cfg.smoothingPeriod)
    (hw : 0 < (Simple.loopResult cfg now trades).2.2) :
    (Simple.calculateIndex cfg st now trades).historicalValues.getLast? =
      some ⟨now,
        cfg.baselineValue +
          ((Simple.loopResult cfg now trades).2.1 / (Simple.loopResult cfg now trades).2.2 - 50),
        (Simple.loopResult cfg now trades).2.1 / (Simple.loopResult cfg now trades).2.2⟩ := by
  unfold Simple.calculateIndex
  rw [if_neg (by simpa [List.isEmpty_iff] using hne)]
  dsimp only
  rw [if_pos hw]
  dsimp only
  rw [List.filter_append]
  have hpred : (decide (now - cfg.smoothingPeriod ≤
      (⟨now,
        cfg.baselineValue +
          ((Simple.loopResult cfg now trades).2.1 / (Simple.loopResult cfg now trades).2.2 - 50),
        (Simple.loopResult cfg now trades).2.1 / (Simple.loopResult cfg now trades).2.2⟩ :
        Simple.HistEntry).timestamp)) = true := by
    simp only [decide_eq_true_eq]
    linarith
  rw [List.filter_singleton, hpred, cond_true, List.getLast?_concat]

/-- C5 witness: two categories weighted 0.4/0.6 with probabilities 70/50
give overall probability 58 and a raw index entry of 108. -/
theorem c5_raw_index_formula_witness :
    Simple.filterCryptoTrades c5Trades ≠ [] ∧
    0 ≤ c5Cfg.smoothingPeriod ∧
    0 < (Simple.loopResult c5Cfg 1000000000 c5Trades).2.2 ∧
    (Simple.calculateIndex c5Cfg (Simple.initState c5Cfg) 1000000000
        c5Trades).historicalValues.getLast? = some ⟨1000000000, 108, 58⟩ := by
  refine ⟨by decide, by decide, by decide, ?_⟩
  have h := c5_raw_index_formula c5Cfg (Simple.initState c5Cfg) 1000000000 c5Trades
    (by decide) (by decide) (by decide)
  rw [h]
  decide

/-! ### Claim C6 -/

/-- C6: after a tick with positive active weight, no surviving history entry
has timestamp `now − window − ε` (any `ε > 0`), every previous entry with
timestamp `now − window + ε` survives, and the reported index equals the
arithmetic mean of the `value` fields of exactly the retained entries. -/
theorem c6_smoothing_window_boundary (cfg : Simple.Config) (st : Simple.IndexState)
    (now : ℚ) (trades : List TradeRecord) (ε : ℚ)
    (hε : 0 < ε)
    (hne : Simple.filterCryptoTrades trades ≠ [])
    (hsp : 0 ≤ cfg.smoothingPeriod)
    (hw : 0 < (Simple.loopResult cfg now trades).2.2) :
    (∀ e ∈ (Simple.calculateIndex cfg st now trades).historicalValues,
        e.timestamp ≠ now - cfg.smoothingPeriod - ε) ∧
    (∀ e ∈ st.historicalValues, e.timestamp = now - cfg.smoothingPeriod + ε →
        e ∈ (Simple.calculateIndex cfg st now trades).historicalValues) ∧
    (Simple.calculateIndex cfg st now trades).currentIndex =
      ((Simple.calculateIndex cfg st now trades).historicalValues.map
          Simple.HistEntry.value).sum /
        (((Simple.calculateIndex cfg st now trades).historicalValues.length : ℕ) : ℚ) := by
  unfold Simple.calculateIndex
  rw [if_neg (by simpa [List.isEmpty_iff] using hne)]
  dsimp only
  rw [if_pos hw]
  dsimp only
  refine ⟨?_, ?_, ?_⟩
  · intro e he
    have hkeep := List.of_mem_filter he
    have hle : now - cfg.smoothingPeriod ≤ e.timestamp := by
      simpa using hkeep
    intro hc
    rw [hc] at hle
    linarith
  · intro e he hts
    refine List.mem_filter.mpr ⟨List.mem_append_left _ he, ?_⟩
    simp only [decide_eq_true_eq, hts]
    linarith
  · have hmem : (⟨now,
        cfg.baselineValue +
          ((Simple.loopResult cfg now trades).2.1 /
            (Simple.loopResult cfg now trades).2.2 - 50),
        (Simple.loopResult cfg now trades).2.1 /
          (Simple.loopResult cfg now trades).2.2⟩ : Simple.HistEntry) ∈
        (st.historicalValues ++ [(⟨now,
          cfg.baselineValue +
            ((Simple.loopResult cfg now trades).2.1 /
              (Simple.loopResult cfg now trades).2.2 - 50),
          (Simple.loopResult cfg now trades).2.1 /
            (Simple.loopResult cfg now trades).2.2⟩ : Simple.HistEntry)]).filter
          (fun e => decide (now - cfg.smoothingPeriod ≤ e.timestamp)) := by
      refine List.mem_filter.mpr ⟨List.mem_append_right _ (List.mem_singleton_self _), ?_⟩
      simp only [decide_eq_true_eq]
      linarith
    have hlen : 0 < ((st.historicalValues ++ [(⟨now,
        cfg.baselineValue +
          ((Simple.loopResult cfg now trades).2.1 /
            (Simple.loopResult cfg now trades).2.2 - 50),
        (Simple.loopResult cfg now trades).2.1 /
          (Simple.loopResult cfg now trades).2.2⟩ : Simple.HistEntry)]).filter
          (fun e => decide (now - cfg.smoothingPeriod ≤ e.timestamp))).length :=
      List.length_pos.mpr (List.ne_nil_of_mem hmem)
    rw [if_pos hlen]

/-- C6 witness: with a 1000 ms window at tick time 10000, the entry stamped
8999 is dropped, the entry stamped 9001 is retained, and the reported index
is the mean of the retained values. -/
theorem c6_smoothing_window_boundary_witness :
    (0 : ℚ) < 1 ∧
    c6Bad.timestamp = c6Now - c6Cfg.smoothingPeriod - 1 ∧
    c6Old.timestamp = c6Now - c6Cfg.smoothingPeriod + 1 ∧
    c6Bad ∉ (Simple.calculateIndex c6Cfg c6State c6Now c6Trades).historicalValues ∧
    c6Old ∈ (Simple.calculateIndex c6Cfg c6State c6Now c6Trades).historicalValues ∧
    (Simple.calculateIndex c6Cfg c6State c6Now c6Trades).currentIndex =
      ((Simple.calculateIndex c6Cfg c6State c6Now c6Trades).historicalValues.map
          Simple.HistEntry.value).sum /
        (((Simple.calculateIndex c6Cfg c6State c6Now c6Trades).historicalValues.length : ℕ) : ℚ) := by
  have h := c6_smoothing_window_boundary c6Cfg c6State c6Now c6Trades 1
    (by decide) (by decide) (by decide) (by decide)
  exact ⟨by decide, by decide, by decide,
    fun hmem => h.1 c6Bad hmem (by decide),
    h.2.1 c6Old (by decide) (by decide),
    h.2.2⟩

/-! ### Claim C3 -/

theorem find?_middle_false {α : Type} (p : α → Bool) (c : α) (hc : p c = false) :
    ∀ (l1 l2 : List α), List.find? p (l1 ++ c :: l2) = List.find? p (l1 ++ l2)
  | [], l2 => by simp [List.find?_cons, hc]
  | a :: l1, l2 => by
      cases ha : p a <;>
        simp [List.find?_cons, ha, find?_middle_false p c hc l1 l2]

theorem titleMatch_false_of_matchesCategory_false {kw : List String}
    {m : MarketSummary} (h : matchesCategory kw m = false) :
    (kw.any fun k => jsIncludes (jsToLower m.title) k) = false := by
  unfold matchesCategory at h
  rw [List.any_eq_false] at h ⊢
  intro k hk
  have := h k hk
  simp only [Bool.or_eq_true, not_or] at this
  simpa using this.1.1

theorem impactWeight_middle (l1 l2 : List Simple.CategoryCfg) (c : Simple.CategoryCfg)
    (m : MarketSummary) (hm : matchesCategory c.keywords m = false) :
    Simple.calculateImpactWeight (l1 ++ c :: l2) m =
    Simple.calculateImpactWeight (l1 ++ l2) m := by
  unfold Simple.calculateImpactWeight
  rw [find?_middle_false _ c (titleMatch_false_of_matchesCategory_false hm) l1 l2]

theorem marketContribution_middle (l1 l2 : List Simple.CategoryCfg)
    (c : Simple.CategoryCfg) (now : ℚ) (m : MarketSummary)
    (hm : matchesCategory c.keywords m = false) :
    Simple.marketContribution (l1 ++ c :: l2) now m =
    Simple.marketContribution (l1 ++ l2) now m := by
  unfold Simple.marketContribution Simple.calculateMarketWeight
  rw [impactWeight_middle l1 l2 c m hm]

theorem marketLoop_congr (cats1 cats2 : List Simple.CategoryCfg) (now : ℚ)
    (ms : List MarketSummary)
    (h : ∀ m ∈ ms, Simple.marketContribution cats1 now m =
      Simple.marketContribution cats2 now m) :
    Simple.marketLoop cats1 now ms = Simple.marketLoop cats2 now ms := by
  rw [Simple.marketLoop_eq, Simple.marketLoop_eq]
  refine Prod.ext ?_ ?_ <;> dsimp only <;>
    exact congrArg List.sum (List.map_congr_left fun m hm => by rw [h m hm])

theorem calculateCategoryIndex_middle (l1 l2 : List Simple.CategoryCfg)
    (c : Simple.CategoryCfg) (now : ℚ) (kw : List String)
    (markets : List MarketSummary)
    (habs : ∀ m ∈ markets, matchesCategory c.keywords m = false) :
    Simple.calculateCategoryIndex (l1 ++ c :: l2) now kw markets =
    Simple.calculateCategoryIndex (l1 ++ l2) now kw markets := by
  unfold Simple.calculateCategoryIndex
  dsimp only
  rw [marketLoop_congr (l1 ++ c :: l2) (l1 ++ l2) now
    (markets.filter (matchesCategory kw))
    (fun m hm => marketContribution_middle l1 l2 c now m
      (habs m (List.mem_of_mem_filter hm)))]

/-- C3: if one configured category matches no market of the batch (its
category probability is null), the tick computes the same index value and
the same history buffer as it would under the configuration with that
category removed entirely: absent categories never dilute the result. -/
theorem c3_absent_category_no_dilution (l1 l2 : List Simple.CategoryCfg)
    (c : Simple.CategoryCfg) (b sp : ℚ) (st : Simple.IndexState) (now : ℚ)
    (trades : List TradeRecord)
    (habs : ∀ m ∈ Simple.processedMarkets trades,
      matchesCategory c.keywords m = false) :
    Simple.calculateCategoryIndex (l1 ++ c :: l2) now c.keywords
      (Simple.processedMarkets trades) = none ∧
    (Simple.calculateIndex ⟨l1 ++ c :: l2, b, sp⟩ st now trades).currentIndex =
      (Simple.calculateIndex ⟨l1 ++ l2, b, sp⟩ st now trades).currentIndex ∧
    (Simple.calculateIndex ⟨l1 ++ c :: l2, b, sp⟩ st now trades).historicalValues =
      (Simple.calculateIndex ⟨l1 ++ l2, b, sp⟩ st now trades).historicalValues := by
  have hfilter : (Simple.processedMarkets trades).filter
      (matchesCategory c.keywords) = [] :=
    List.filter_eq_nil.mpr (fun m hm => by rw [habs m hm]; exact Bool.false_ne_true)
  have hnull : Simple.calculateCategoryIndex (l1 ++ c :: l2) now c.keywords
      (Simple.processedMarkets trades) = none := by
    unfold Simple.calculateCategoryIndex
    rw [hfilter]
    rfl
  have hwt : Simple.weightedTerm (l1 ++ c :: l2) now (Simple.processedMarkets trades) =
      fun c' => Simple.weightedTerm (l1 ++ l2) now (Simple.processedMarkets trades) c' := by
    funext c'
    unfold Simple.weightedTerm
    rw [calculateCategoryIndex_middle l1 l2 c now c'.keywords _ habs]
  have hat : Simple.activeTerm (l1 ++ c :: l2) now (Simple.processedMarkets trades) =
      fun c' => Simple.activeTerm (l1 ++ l2) now (Simple.processedMarkets trades) c' := by
    funext c'
    unfold Simple.activeTerm
    rw [calculateCategoryIndex_middle l1 l2 c now c'.keywords _ habs]
  have hwt0 : Simple.weightedTerm (l1 ++ l2) now (Simple.processedMarkets trades) c = 0 := by
    unfold Simple.weightedTerm
    rw [← calculateCategoryIndex_middle l1 l2 c now c.keywords _ habs, hnull]
  have hat0 : Simple.activeTerm (l1 ++ l2) now (Simple.processedMarkets trades) c = 0 := by
    unfold Simple.activeTerm
    rw [← calculateCategoryIndex_middle l1 l2 c now c.keywords _ habs, hnull]
  have h1 : (Simple.loopResult ⟨l1 ++ c :: l2, b, sp⟩ now trades).2.1 =
      (Simple.loopResult ⟨l1 ++ l2, b, sp⟩ now trades).2.1 := by
    unfold Simple.loopResult
    rw [Simple.categoryLoop_eq, Simple.categoryLoop_eq]
    dsimp only
    rw [hwt, List.map_append, List.map_cons, List.map_append, List.sum_append,
      List.sum_cons, List.sum_append, hwt0]
    ring
  have h2 : (Simple.loopResult ⟨l1 ++ c :: l2, b, sp⟩ now trades).2.2 =
      (Simple.loopResult ⟨l1 ++ l2, b, sp⟩ now trades).2.2 := by
    unfold Simple.loopResult
    rw [Simple.categoryLoop_eq, Simple.categoryLoop_eq]
    dsimp only
    rw [hat, List.map_append, List.map_cons, List.map_append, List.sum_append,
      List.sum_cons, List.sum_append, hat0]
    ring
  refine ⟨hnull, ?_⟩
  unfold Simple.calculateIndex
  by_cases hemp : (Simple.filterCryptoTrades trades).isEmpty = true
  · rw [if_pos hemp, if_pos hemp]
    exact ⟨rfl, rfl⟩
  · rw [if_neg hemp, if_neg hemp]
    dsimp only
    rw [h1, h2]
    by_cases hw : 0 < (Simple.loopResult ⟨l1 ++ l2, b, sp⟩ now trades).2.2
    · rw [if_pos hw, if_pos hw]
      exact ⟨rfl, rfl⟩
    · rw [if_neg hw, if_neg hw]
      exact ⟨rfl, rfl⟩

/-- C3 witness: the theorem at a two-category configuration, one category
empty on the batch. -/
theorem c3_absent_category_no_dilution_witness :
    (Simple.calculateCategoryIndex
      ([⟨"cata", ["bitcoin"], 4/10⟩] ++ ⟨"zcat", ["zzz"], 3/10⟩ :: []) 7
      (["zzz"] : List String) (Simple.processedMarkets c5Trades) = none ∧
    (Simple.calculateIndex ⟨[⟨"cata", ["bitcoin"], 4/10⟩] ++ ⟨"zcat", ["zzz"], 3/10⟩ :: [], 100, 3600000⟩
        (Simple.initState c5Cfg) 7 c5Trades).currentIndex =
      (Simple.calculateIndex ⟨[⟨"cata", ["bitcoin"], 4/10⟩] ++ [], 100, 3600000⟩
        (Simple.initState c5Cfg) 7 c5Trades).currentIndex ∧
    (Simple.calculateIndex ⟨[⟨"cata", ["bitcoin"], 4/10⟩] ++ ⟨"zcat", ["zzz"], 3/10⟩ :: [], 100, 3600000⟩
        (Simple.initState c5Cfg) 7 c5Trades).historicalValues =
      (Simple.calculateIndex ⟨[⟨"cata", ["bitcoin"], 4/10⟩] ++ [], 100, 3600000⟩
        (Simple.initState c5Cfg) 7 c5Trades).historicalValues) :=
  c3_absent_category_no_dilution [⟨"cata", ["bitcoin"], 4/10⟩] []
    ⟨"zcat", ["zzz"], 3/10⟩ 100 3600000 (Simple.initState c5Cfg) 7 c5Trades (by decide)

/-! ### Claim C10 -/

theorem simple_extractProbability_bounds (m : MarketSummary) (p : ℚ)
    (h : Simple.extractProbability m = some p) : 0 ≤ p ∧ p ≤ 100 := by
  unfold Simple.extractProbability at h
  split at h
  · exact absurd h (by simp)
  · obtain rfl : _ = p := Option.some.inj h
    exact ⟨jsClamp_nonneg _, jsClamp_le_hundred _⟩

theorem marketContribution_bounds (cats : List Simple.CategoryCfg) (now : ℚ)
    (m : MarketSummary) :
    0 ≤ (Simple.marketContribution cats now m).2 ∧
    0 ≤ (Simple.marketContribution cats now m).1 ∧
    (Simple.marketContribution cats now m).1 ≤
      100 * (Simple.marketContribution cats now m).2 := by
  unfold Simple.marketContribution
  cases h : Simple.extractProbability m with
  | none => simp
  | some p =>
      obtain ⟨hp0, hp1⟩ := simple_extractProbability_bounds m p h
      dsimp only
      split
      · rename_i hw
        exact ⟨le_of_lt hw, mul_nonneg hp0 (le_of_lt hw),
          mul_le_mul_of_nonneg_right hp1 (le_of_lt hw)⟩
      · simp

theorem contribution_sums_bounds (cats : List Simple.CategoryCfg) (now : ℚ) :
    ∀ ms : List MarketSummary,
      0 ≤ (ms.map fun m => (Simple.marketContribution cats now m).2).sum ∧
      0 ≤ (ms.map fun m => (Simple.marketContribution cats now m).1).sum ∧
      (ms.map fun m => (Simple.marketContribution cats now m).1).sum ≤
        100 * (ms.map fun m => (Simple.marketContribution cats now m).2).sum
  | [] => by simp
  | m :: ms => by
      obtain ⟨a1, a2, a3⟩ := contribution_sums_bounds cats now ms
      obtain ⟨b1, b2, b3⟩ := marketContribution_bounds cats now m
      simp only [List.map_cons, List.sum_cons]
      refine ⟨by linarith, by linarith, by linarith⟩

theorem calculateCategoryIndex_bounds (cats : List Simple.CategoryCfg) (now : ℚ)
    (kw : List String) (markets : List MarketSummary) (p : ℚ)
    (h : Simple.calculateCategoryIndex cats now kw markets = some p) :
    0 ≤ p ∧ p ≤ 100 := by
  unfold Simple.calculateCategoryIndex at h
  dsimp only at h
  split at h
  · exact absurd h (by simp)
  · split at h
    · rename_i hpos
      obtain rfl : _ = p := Option.some.inj h
      have hb := contribution_sums_bounds cats now
        (markets.filter (matchesCategory kw))
      rw [Simple.marketLoop_eq] at hpos ⊢
      dsimp only at hpos ⊢
      constructor
      · exact div_nonneg hb.2.1 (le_of_lt hpos)
      · rw [div_le_iff₀ hpos]
        calc (List.map (fun m => (Simple.marketContribution cats now m).1)
            (markets.filter (matchesCategory kw))).sum ≤
            100 * (List.map (fun m => (Simple.marketContribution cats now m).2)
              (markets.filter (matchesCategory kw))).sum := hb.2.2
        _ = 100 * (List.map (fun m => (Simple.marketContribution cats now m).2)
              (markets.filter (matchesCategory kw))).sum := rfl
    · exact absurd h (by simp)

theorem categoryTerm_bounds (cats : List Simple.CategoryCfg) (now : ℚ)
    (markets : List MarketSummary) (c : Simple.CategoryCfg) (hw : 0 ≤ c.weight) :
    0 ≤ Simple.activeTerm cats now markets c ∧
    0 ≤ Simple.weightedTerm cats now markets c ∧
    Simple.weightedTerm cats now markets c ≤
      100 * Simple.activeTerm cats now markets c := by
  unfold Simple.weightedTerm Simple.activeTerm
  cases h : Simple.calculateCategoryIndex cats now c.keywords markets with
  | none => simp
  | some p =>
      obtain ⟨hp0, hp1⟩ := calculateCategoryIndex_bounds cats now c.keywords markets p h
      exact ⟨hw, mul_nonneg hp0 hw, mul_le_mul_of_nonneg_right hp1 hw⟩

theorem category_sums_bounds (cats : List Simple.CategoryCfg) (now : ℚ)
    (markets : List MarketSummary) :
    ∀ l : List Simple.CategoryCfg, (∀ c ∈ l, 0 ≤ c.weight) →
      0 ≤ (l.map (Simple.activeTerm cats now markets)).sum ∧
      0 ≤ (l.map (Simple.weightedTerm cats now markets)).sum ∧
      (l.map (Simple.weightedTerm cats now markets)).sum ≤
        100 * (l.map (Simple.activeTerm cats now markets)).sum
  | [], _ => by simp
  | c :: l, h => by
      obtain ⟨a1, a2, a3⟩ := category_sums_bounds cats now markets l
        (fun c' hc' => h c' (List.mem_cons_of_mem _ hc'))
      obtain ⟨b1, b2, b3⟩ := categoryTerm_bounds cats now markets c
        (h c (List.mem_cons_self _ _))
      simp only [List.map_cons, List.sum_cons]
      refine ⟨by linarith, by linarith, by linarith⟩

/-- C10: with non-negative configured category weights, the engine state
invariant `currentIndexValue ∈ [baseline − 50, baseline + 50]` (with every
buffered raw value in the same band) holds initially (the constructor sets
`currentIndex = baseline`) and is preserved by every tick: category and
overall weighted averages stay in `[0,100]`, the raw index stays within
±50 of the baseline, and the moving-average smoothing of in-band values
stays in band.  The multiplicative time-decay adjustment of the
`CPMI_Final` variant preserves the same band for any factor in `[0,1]`. -/
theorem c10_index_bound_invariant (cfg : Simple.Config)
    (hw : ∀ c ∈ cfg.categories, 0 ≤ c.weight) :
    IndexInv cfg.baselineValue (Simple.initState cfg) ∧
    (∀ (st : Simple.IndexState) (now : ℚ) (trades : List TradeRecord),
      IndexInv cfg.baselineValue st →
      IndexInv cfg.baselineValue (Simple.calculateIndex cfg st now trades)) ∧
    (∀ b p d : ℚ, 0 ≤ p → p ≤ 100 → 0 ≤ d → d ≤ 1 →
      b - 50 ≤ adjustedRawIndex b p d ∧ adjustedRawIndex b p d ≤ b + 50) := by
  refine ⟨⟨⟨?_, ?_⟩, ?_⟩, ?_, ?_⟩
  · simp only [Simple.initState]
    linarith
  · simp only [Simple.initState]
    linarith
  · simp [Simple.initState]
  · intro st now trades hinv
    unfold Simple.calculateIndex
    by_cases hemp : (Simple.filterCryptoTrades trades).isEmpty = true
    · rw [if_pos hemp]
      exact hinv
    · rw [if_neg hemp]
      dsimp only
      by_cases htw : 0 < (Simple.loopResult cfg now trades).2.2
      · rw [if_pos htw]
        have hsums := category_sums_bounds cfg.categories now
          (Simple.processedMarkets trades) cfg.categories hw
        have hloop1 : (Simple.loopResult cfg now trades).2.1 =
            (cfg.categories.map (Simple.weightedTerm cfg.categories now
              (Simple.processedMarkets trades))).sum := by
          unfold Simple.loopResult
          rw [Simple.categoryLoop_eq]
        have hloop2 : (Simple.loopResult cfg now trades).2.2 =
            (cfg.categories.map (Simple.activeTerm cfg.categories now
              (Simple.processedMarkets trades))).sum := by
          unfold Simple.loopResult
          rw [Simple.categoryLoop_eq]
        have hov0 : 0 ≤ (Simple.loopResult cfg now trades).2.1 /
            (Simple.loopResult cfg now trades).2.2 := by
          rw [hloop1]
          exact div_nonneg hsums.2.1 (le_of_lt htw)
        have hov1 : (Simple.loopResult cfg now trades).2.1 /
            (Simple.loopResult cfg now trades).2.2 ≤ 100 := by
          rw [div_le_iff₀ htw, hloop1, hloop2]
          exact hsums.2.2
        have hraw : cfg.baselineValue - 50 ≤
            cfg.baselineValue + ((Simple.loopResult cfg now trades).2.1 /
              (Simple.loopResult cfg now trades).2.2 - 50) ∧
            cfg.baselineValue + ((Simple.loopResult cfg now trades).2.1 /
              (Simple.loopResult cfg now trades).2.2 - 50) ≤
              cfg.baselineValue + 50 := ⟨by linarith, by linarith⟩
        have hmemb : ∀ e ∈ (st.historicalValues ++
            [(⟨now, cfg.baselineValue + ((Simple.loopResult cfg now trades).2.1 /
                (Simple.loopResult cfg now trades).2.2 - 50),
              (Simple.loopResult cfg now trades).2.1 /
                (Simple.loopResult cfg now trades).2.2⟩ : Simple.HistEntry)]).filter
              (fun e => decide (now - cfg.smoothingPeriod ≤ e.timestamp)),
            cfg.baselineValue - 50 ≤ e.value ∧ e.value ≤ cfg.baselineValue + 50 := by
          intro e he
          rcases List.mem_append.mp (List.mem_of_mem_filter he) with hold | hnew
          · exact hinv.2 e hold
          · rw [List.mem_singleton.mp hnew]
            exact hraw
        refine ⟨?_, hmemb⟩
        dsimp only
        split
        · rename_i hlen
          have hne : ((st.historicalValues ++
              [(⟨now, cfg.baselineValue + ((Simple.loopResult cfg now trades).2.1 /
                  (Simple.loopResult cfg now trades).2.2 - 50),
                (Simple.loopResult cfg now trades).2.1 /
                  (Simple.loopResult cfg now trades).2.2⟩ : Simple.HistEntry)]).filter
                (fun e => decide (now - cfg.smoothingPeriod ≤ e.timestamp))).map
                Simple.HistEntry.value ≠ [] := by
            intro hc
            rw [List.map_eq_nil] at hc
            rw [hc] at hlen
            exact absurd hlen (by simp)
          have := mean_bounds _ (cfg.baselineValue - 50) (cfg.baselineValue + 50) hne
            (by
              intro x hx
              obtain ⟨e, he, rfl⟩ := List.mem_map.mp hx
              exact hmemb e he)
          simpa [List.length_map] using this
        · exact hraw
      · rw [if_neg htw]
        exact ⟨hinv.1, hinv.2⟩
  · intro b p d hp0 hp1 hd0 hd1
    unfold adjustedRawIndex
    have h1 : 0 ≤ p * d := mul_nonneg hp0 hd0
    have h2 : p * d ≤ p := mul_le_of_le_one_right hp0 hd1
    exact ⟨by linarith, by linarith⟩

/-- C10 witness: the invariant theorem at a concrete configuration, state
and batch. -/
theorem c10_index_bound_invariant_witness :
    IndexInv c5Cfg.baselineValue (Simple.initState c5Cfg) ∧
    IndexInv c5Cfg.baselineValue
      (Simple.calculateIndex c5Cfg (Simple.initState c5Cfg) 1000000000 c5Trades) ∧
    (100 : ℚ) - 50 ≤ adjustedRawIndex 100 58 (7/10) ∧
      adjustedRawIndex 100 58 (7/10) ≤ (100 : ℚ) + 50 := by
  have h := c10_index_bound_invariant c5Cfg (by decide)
  exact ⟨h.1,
    h.2.1 (Simple.initState c5Cfg) 1000000000 c5Trades h.1,
    h.2.2 100 58 (7/10) (by norm_num) (by norm_num) (by norm_num) (by norm_num)⟩

/-! ### Claim C9 -/

theorem marketLoop_middle_contribution (cats : List Simple.CategoryCfg) (now : ℚ)
    (kw : List String) (l1 l2 : List MarketSummary) (m : MarketSummary)
    (hm : matchesCategory kw m = true) :
    (Simple.marketLoop cats now ((l1 ++ m :: l2).filter (matchesCategory kw))).1 =
      (Simple.marketLoop cats now ((l1 ++ l2).filter (matchesCategory kw))).1 +
        (Simple.marketContribution cats now m).1 ∧
    (Simple.marketLoop cats now ((l1 ++ m :: l2).filter (matchesCategory kw))).2 =
      (Simple.marketLoop cats now ((l1 ++ l2).filter (matchesCategory kw))).2 +
        (Simple.marketContribution cats now m).2 := by
  rw [List.filter_append, List.filter_cons, if_pos hm, List.filter_append,
    Simple.marketLoop_eq, Simple.marketLoop_eq]
  simp only [List.map_append, List.map_cons, List.sum_append, List.sum_cons]
  constructor <;> ring

theorem getMarketCategory_first_match (pre post : List (String × List String))
    (c : String × List String) (m : MarketSummary)
    (hpre : ∀ c' ∈ pre, matchesCategory c'.2 m = false)
    (hc : matchesCategory c.2 m = true) :
    CPMI.getMarketCategory (pre ++ c :: post) m = c.1 := by
  unfold CPMI.getMarketCategory
  induction pre with
  | nil => simp [List.find?_cons, hc]
  | cons a pre ih =>
      have ha := hpre a (List.mem_cons_self _ _)
      simp only [List.cons_append, List.find?_cons, ha]
      exact ih (fun c' h' => hpre c' (List.mem_cons_of_mem _ h'))

/-- C9: category membership during aggregation is not exclusive.  A market
matching the keywords of two categories is in the filtered market list of
both, and its `(probability × weight, weight)` contribution enters BOTH
categories' accumulated sums in the same cycle — while the single-category
classifier `getMarketCategory` assigns the market only the first matching
category of the table. -/
theorem c9_category_membership_not_exclusive
    (cats : List Simple.CategoryCfg) (now : ℚ) (kw1 kw2 : List String)
    (l1 l2 : List MarketSummary) (m : MarketSummary)
    (pre post : List (String × List String)) (c : String × List String)
    (h1 : matchesCategory kw1 m = true) (h2 : matchesCategory kw2 m = true)
    (hpre : ∀ c' ∈ pre, matchesCategory c'.2 m = false)
    (hc : matchesCategory c.2 m = true) :
    (m ∈ (l1 ++ m :: l2).filter (matchesCategory kw1) ∧
     m ∈ (l1 ++ m :: l2).filter (matchesCategory kw2)) ∧
    ((Simple.marketLoop cats now ((l1 ++ m :: l2).filter (matchesCategory kw1))).1 =
       (Simple.marketLoop cats now ((l1 ++ l2).filter (matchesCategory kw1))).1 +
         (Simple.marketContribution cats now m).1 ∧
     (Simple.marketLoop cats now ((l1 ++ m :: l2).filter (matchesCategory kw1))).2 =
       (Simple.marketLoop cats now ((l1 ++ l2).filter (matchesCategory kw1))).2 +
         (Simple.marketContribution cats now m).2) ∧
    ((Simple.marketLoop cats now ((l1 ++ m :: l2).filter (matchesCategory kw2))).1 =
       (Simple.marketLoop cats now ((l1 ++ l2).filter (matchesCategory kw2))).1 +
         (Simple.marketContribution cats now m).1 ∧
     (Simple.marketLoop cats now ((l1 ++ m :: l2).filter (matchesCategory kw2))).2 =
       (Simple.marketLoop cats now ((l1 ++ l2).filter (matchesCategory kw2))).2 +
         (Simple.marketContribution cats now m).2) ∧
    CPMI.getMarketCategory (pre ++ c :: post) m = c.1 := by
  refine ⟨⟨?_, ?_⟩, marketLoop_middle_contribution cats now kw1 l1 l2 m h1,
    marketLoop_middle_contribution cats now kw2 l1 l2 m h2,
    getMarketCategory_first_match pre post c m hpre hc⟩
  · exact List.mem_filter.mpr ⟨by simp, h1⟩
  · exact List.mem_filter.mpr ⟨by simp, h2⟩

/-- C9 witness: a "bitcoin etf approval" market matching both the bitcoin
and the etf keyword lists contributes to both, yet `getMarketCategory`
assigns only `"bitcoin-markets"` (the first matching entry of its table). -/
theorem c9_category_membership_not_exclusive_witness :
    matchesCategory ["bitcoin"] c9Market = true ∧
    matchesCategory ["etf"] c9Market = true ∧
    matchesCategory ["zzz"] c9Market = false ∧
    matchesCategory (("bitcoin-markets", ["bitcoin"]) : String × List String).2 c9Market = true ∧
    ((c9Market ∈ ([] ++ c9Market :: []).filter (matchesCategory ["bitcoin"]) ∧
      c9Market ∈ ([] ++ c9Market :: []).filter (matchesCategory ["etf"])) ∧
     ((Simple.marketLoop [] 0 (([] ++ c9Market :: []).filter (matchesCategory ["bitcoin"]))).1 =
        (Simple.marketLoop [] 0 (([] ++ []).filter (matchesCategory ["bitcoin"]))).1 +
          (Simple.marketContribution [] 0 c9Market).1 ∧
      (Simple.marketLoop [] 0 (([] ++ c9Market :: []).filter (matchesCategory ["bitcoin"]))).2 =
        (Simple.marketLoop [] 0 (([] ++ []).filter (matchesCategory ["bitcoin"]))).2 +
          (Simple.marketContribution [] 0 c9Market).2) ∧
     ((Simple.marketLoop [] 0 (([] ++ c9Market :: []).filter (matchesCategory ["etf"]))).1 =
        (Simple.marketLoop [] 0 (([] ++ []).filter (matchesCategory ["etf"]))).1 +
          (Simple.marketContribution [] 0 c9Market).1 ∧
      (Simple.marketLoop [] 0 (([] ++ c9Market :: []).filter (matchesCategory ["etf"]))).2 =
        (Simple.marketLoop [] 0 (([] ++ []).filter (matchesCategory ["etf"]))).2 +
          (Simple.marketContribution [] 0 c9Market).2) ∧
     CPMI.getMarketCategory ([("zzz-cat", ["zzz"])] ++
       ("bitcoin-markets", ["bitcoin"]) :: [("etf-markets", ["etf"])]) c9Market =
       "bitcoin-markets") :=
  ⟨by decide, by decide, by decide, by decide,
   c9_category_membership_not_exclusive [] 0 ["bitcoin"] ["etf"] [] [] c9Market
     [("zzz-cat", ["zzz"])] [("etf-markets", ["etf"])] ("bitcoin-markets", ["bitcoin"])
     (by decide) (by decide) (by decide) (by decide)⟩

end PolymarketIndex
